import Mathlib

set_option maxRecDepth 8000

/-!
Shallow embedding of the trading-bot core (risk evaluator, strategy registry,
order executor, market-data service, cycle engine) and proofs about it.

Modelling conventions:
* Python floats are modelled as exact rationals (Rat).
* datetimes are modelled as Nat instants (minutes for bar timestamps).
* Python dicts are modelled as association lists with unique keys, with
  lookup returning the first match, insertion replacing in place, and
  deletion removing the entry with the given key.
* broker calls are modelled as oracle values (Except for fallible calls).
-/

namespace Bot

/-- Dict lookup: first entry with the given key (dicts keep keys unique). -/
def dlookup {κ α : Type} [DecidableEq κ] : List (κ × α) → κ → Option α
  | [], _ => none
  | kv :: rest, key => if kv.1 = key then some kv.2 else dlookup rest key

/-- Dict insertion: replace in place if the key exists, else append. -/
def dinsert {κ α : Type} [DecidableEq κ] : List (κ × α) → κ → α → List (κ × α)
  | [], key, v => [(key, v)]
  | kv :: rest, key, v =>
    if kv.1 = key then (kv.1, v) :: rest else kv :: dinsert rest key v

/-- Dict deletion of the entry (entries) with the given key. -/
def derase {κ α : Type} [DecidableEq κ] : List (κ × α) → κ → List (κ × α)
  | [], _ => []
  | kv :: rest, key => if kv.1 = key then derase rest key else kv :: derase rest key

/-- Signal kinds emitted by strategies (signals.SignalType). -/
inductive SignalType where
  | BUY
  | SELL
  | CLOSE
  | HOLD
deriving DecidableEq

/-- String value of a signal kind (the Enum value used as broker order type). -/
def SignalType.value : SignalType → String
  | .BUY => "BUY"
  | .SELL => "SELL"
  | .CLOSE => "CLOSE"
  | .HOLD => "HOLD"

/-- entities.SymbolConfig. -/
structure SymbolConfig where
  name : String
  min_timeframe : String
  lot_size : Rat
deriving DecidableEq

/-- entities.RiskLimits; dd maps are dicts keyed by symbol and strategy name. -/
structure RiskLimits where
  dd_global : Option Rat
  dd_por_activo : List (String × Rat)
  dd_por_estrategia : List (String × Rat)
  initial_balance : Rat
deriving DecidableEq

/-- entities.Position. -/
structure Position where
  symbol : String
  volume : Rat
  entry_price : Rat
  stop_loss : Option Rat
  take_profit : Option Rat
  strategy_name : String
  open_time : Nat
  magic_number : Option Nat
deriving DecidableEq

/-- entities.TradeRecord. -/
structure TradeRecord where
  symbol : String
  strategy_name : String
  entry_time : Nat
  exit_time : Nat
  entry_price : Rat
  exit_price : Rat
  size : Rat
  pnl : Rat
  stop_loss : Option Rat
  take_profit : Option Rat
deriving DecidableEq

/-- entities.OrderRequest. -/
structure OrderRequest where
  symbol : String
  volume : Rat
  order_type : String
  stop_loss : Option Rat
  take_profit : Option Rat
  comment : Option String
  magic_number : Option Nat
deriving DecidableEq

/-- entities.OrderResult. -/
structure OrderResult where
  success : Bool
  order_id : Option Nat
  error_message : Option String
deriving DecidableEq

/-- signals.Signal. -/
structure Signal where
  symbol : String
  strategy_name : String
  timeframe : String
  signal_type : SignalType
  size : Rat
  stop_loss : Option Rat
  take_profit : Option Rat
deriving DecidableEq

/-! ## Risk manager (risk_management.RiskManager) -/

/-- One iteration of the loop body of RiskManager._calculate_drawdown over the
accumulator (equity, max_equity, max_drawdown). -/
def drawdownStep (acc : Rat × Rat × Rat) (t : TradeRecord) : Rat × Rat × Rat :=
  let equity := acc.1 + t.pnl
  let maxEquity := if equity > acc.2.1 then equity else acc.2.1
  let currentDd := ((maxEquity - equity) / maxEquity) * 100
  let maxDrawdown := if currentDd > acc.2.2 then currentDd else acc.2.2
  (equity, maxEquity, maxDrawdown)

/-- RiskManager._calculate_drawdown: equity-curve max drawdown in percent. -/
def calculate_drawdown (limits : RiskLimits) (trades : List TradeRecord) : Rat :=
  match trades with
  | [] => 0
  | _ =>
    (trades.foldl drawdownStep
      (limits.initial_balance, limits.initial_balance, 0)).2.2

/-- One iteration of the spec reference drawdown algorithm (spec section 4.2),
with peak and running maximum written with max. -/
def drawdownSpecStep (acc : Rat × Rat × Rat) (t : TradeRecord) : Rat × Rat × Rat :=
  let equity := acc.1 + t.pnl
  let peak := max acc.2.1 equity
  let dd := ((peak - equity) / peak) * 100
  (equity, peak, max acc.2.2 dd)

/-- The spec reference equity-curve max drawdown (spec section 4.2 pseudocode). -/
def drawdownSpec (initial_balance : Rat) (trades : List TradeRecord) : Rat :=
  (trades.foldl drawdownSpecStep (initial_balance, initial_balance, 0)).2.2

/-- RiskManager.check_bot_risk_limits. -/
def check_bot_risk_limits (limits : RiskLimits) (trades : List TradeRecord) : Bool :=
  match limits.dd_global with
  | none => true
  | some dd => decide (calculate_drawdown limits trades ≤ dd)

/-- RiskManager.check_symbol_risk_limits. -/
def check_symbol_risk_limits (limits : RiskLimits) (symbol : String)
    (trades : List TradeRecord) : Bool :=
  match dlookup limits.dd_por_activo symbol with
  | none => true
  | some limit =>
    decide (calculate_drawdown limits (trades.filter (fun t => t.symbol = symbol)) ≤ limit)

/-- RiskManager.check_strategy_risk_limits. -/
def check_strategy_risk_limits (limits : RiskLimits) (strategy_name : String)
    (trades : List TradeRecord) : Bool :=
  match dlookup limits.dd_por_estrategia strategy_name with
  | none => true
  | some limit =>
    decide (calculate_drawdown limits
      (trades.filter (fun t => t.strategy_name = strategy_name)) ≤ limit)

/-! ## MD5 (hashlib.md5 over the UTF-8 bytes of a string), modelled over Nat -/

/-- UTF-8 encoding of one character, as its list of byte values. -/
def utf8Encode (c : Char) : List Nat :=
  let n := c.toNat
  if n < 0x80 then [n]
  else if n < 0x800 then
    [0xC0 ||| (n >>> 6), 0x80 ||| (n &&& 0x3F)]
  else if n < 0x10000 then
    [0xE0 ||| (n >>> 12), 0x80 ||| ((n >>> 6) &&& 0x3F), 0x80 ||| (n &&& 0x3F)]
  else
    [0xF0 ||| (n >>> 18), 0x80 ||| ((n >>> 12) &&& 0x3F),
     0x80 ||| ((n >>> 6) &&& 0x3F), 0x80 ||| (n &&& 0x3F)]

/-- UTF-8 bytes of a string (str.encode of Python). -/
def strBytes (s : String) : List Nat :=
  s.data.foldr (fun c acc => utf8Encode c ++ acc) []

/-- The 64 MD5 round constants (floor of abs(sin(i+1)) scaled by 2 to the 32). -/
def md5K : List Nat :=
  [0xd76aa478, 0xe8c7b756, 0x242070db, 0xc1bdceee,
   0xf57c0faf, 0x4787c62a, 0xa8304613, 0xfd469501,
   0x698098d8, 0x8b44f7af, 0xffff5bb1, 0x895cd7be,
   0x6b901122, 0xfd987193, 0xa679438e, 0x49b40821,
   0xf61e2562, 0xc040b340, 0x265e5a51, 0xe9b6c7aa,
   0xd62f105d, 0x02441453, 0xd8a1e681, 0xe7d3fbc8,
   0x21e1cde6, 0xc33707d6, 0xf4d50d87, 0x455a14ed,
   0xa9e3e905, 0xfcefa3f8, 0x676f02d9, 0x8d2a4c8a,
   0xfffa3942, 0x8771f681, 0x6d9d6122, 0xfde5380c,
   0xa4beea44, 0x4bdecfa9, 0xf6bb4b60, 0xbebfbc70,
   0x289b7ec6, 0xeaa127fa, 0xd4ef3085, 0x04881d05,
   0xd9d4d039, 0xe6db99e5, 0x1fa27cf8, 0xc4ac5665,
   0xf4292244, 0x432aff97, 0xab9423a7, 0xfc93a039,
   0x655b59c3, 0x8f0ccc92, 0xffeff47d, 0x85845dd1,
   0x6fa87e4f, 0xfe2ce6e0, 0xa3014314, 0x4e0811a1,
   0xf7537e82, 0xbd3af235, 0x2ad7d2bb, 0xeb86d391]

/-- The 64 MD5 per-round left-rotation amounts. -/
def md5S : List Nat :=
  [7, 12, 17, 22, 7, 12, 17, 22, 7, 12, 17, 22, 7, 12, 17, 22,
   5, 9, 14, 20, 5, 9, 14, 20, 5, 9, 14, 20, 5, 9, 14, 20,
   4, 11, 16, 23, 4, 11, 16, 23, 4, 11, 16, 23, 4, 11, 16, 23,
   6, 10, 15, 21, 6, 10, 15, 21, 6, 10, 15, 21, 6, 10, 15, 21]

/-- Bitwise complement on 32 bits. -/
def not32 (x : Nat) : Nat := 0xffffffff - x

/-- Left rotation on 32 bits. -/
def rotl32 (x s : Nat) : Nat := ((x <<< s) % 2 ^ 32) ||| (x >>> (32 - s))

/-- One of the 64 MD5 operations, updating the running (a, b, c, d) state. -/
def md5Round (block : List Nat) (st : Nat × Nat × Nat × Nat) (i : Nat) :
    Nat × Nat × Nat × Nat :=
  let a := st.1
  let b := st.2.1
  let c := st.2.2.1
  let d := st.2.2.2
  let fg : Nat × Nat :=
    if i < 16 then ((b &&& c) ||| (not32 b &&& d), i)
    else if i < 32 then ((b &&& d) ||| (c &&& not32 d), (5 * i + 1) % 16)
    else if i < 48 then (b ^^^ c ^^^ d, (3 * i + 5) % 16)
    else (c ^^^ (b ||| not32 d), (7 * i) % 16)
  let tmp := (a + fg.1 + md5K.getD i 0 + block.getD fg.2 0) % 2 ^ 32
  let nb := (b + rotl32 tmp (md5S.getD i 0)) % 2 ^ 32
  (d, nb, b, c)

/-- Process one 16-word MD5 block, adding the round output into the state. -/
def md5ProcessBlock (st : Nat × Nat × Nat × Nat) (block : List Nat) :
    Nat × Nat × Nat × Nat :=
  let r := (List.range 64).foldl (md5Round block) st
  ((st.1 + r.1) % 2 ^ 32, (st.2.1 + r.2.1) % 2 ^ 32,
   (st.2.2.1 + r.2.2.1) % 2 ^ 32, (st.2.2.2 + r.2.2.2) % 2 ^ 32)

/-- Little-endian 32-bit words from a byte list. -/
def bytesToWords : List Nat → List Nat
  | b0 :: b1 :: b2 :: b3 :: rest =>
    (b0 + b1 * 256 + b2 * 65536 + b3 * 16777216) :: bytesToWords rest
  | _ => []

/-- Fold the MD5 compression over consecutive 16-word blocks. -/
def md5Blocks : Nat × Nat × Nat × Nat → List Nat → Nat × Nat × Nat × Nat
  | st, w0 :: w1 :: w2 :: w3 :: w4 :: w5 :: w6 :: w7 ::
        w8 :: w9 :: w10 :: w11 :: w12 :: w13 :: w14 :: w15 :: rest =>
    md5Blocks
      (md5ProcessBlock st
        [w0, w1, w2, w3, w4, w5, w6, w7, w8, w9, w10, w11, w12, w13, w14, w15])
      rest
  | st, _ => st

/-- The 8 little-endian bytes of the 64-bit message bit length. -/
def leLenBytes (n : Nat) : List Nat :=
  [n &&& 255, (n >>> 8) &&& 255, (n >>> 16) &&& 255, (n >>> 24) &&& 255,
   (n >>> 32) &&& 255, (n >>> 40) &&& 255, (n >>> 48) &&& 255, (n >>> 56) &&& 255]

/-- MD5 padding: 0x80, zeros to 56 mod 64, then the 64-bit bit length. -/
def md5Pad (msg : List Nat) : List Nat :=
  let len := msg.length
  let padLen := (119 - len % 64) % 64
  msg ++ [128] ++ List.replicate padLen 0 ++ leLenBytes ((len * 8) % 2 ^ 64)

/-- Byte swap of one 32-bit word. -/
def byteswap32 (x : Nat) : Nat :=
  (x % 256) * 16777216 + (x / 256 % 256) * 65536 +
    (x / 65536 % 256) * 256 + x / 16777216 % 256

/-- The MD5 digest of the UTF-8 bytes of a string, as the 128-bit integer whose
hexadecimal form is hashlib hexdigest (digest bytes read big-endian). -/
def md5Nat (s : String) : Nat :=
  let padded := md5Pad (strBytes s)
  let r := md5Blocks (0x67452301, 0xefcdab89, 0x98badcfe, 0x10325476)
    (bytesToWords padded)
  byteswap32 r.1 * 2 ^ 96 + byteswap32 r.2.1 * 2 ^ 64 +
    byteswap32 r.2.2.1 * 2 ^ 32 + byteswap32 r.2.2.2

/-! ## Strategy registry (strategy_registry.StrategyRegistry) -/

/-- StrategyRegistry state: the two dicts strategy_to_magic and
magic_to_strategy. -/
structure StrategyRegistry where
  strategy_to_magic : List (String × Nat)
  magic_to_strategy : List (Nat × String)
deriving DecidableEq

/-- Membership test of a magic number in magic_to_strategy. -/
def magicUsed (reg : StrategyRegistry) (m : Nat) : Bool :=
  (dlookup reg.magic_to_strategy m).isSome

/-- The candidate magic number of register_strategy: the integer value of the
first 8 hex characters of the md5 hexdigest (the most significant 32 bits of
the digest), reduced modulo 2 to the 31. -/
def md5Candidate (strategy_name : String) : Nat :=
  (md5Nat strategy_name >>> 96) % 2 ^ 31

/-- Modelled from the spec: the spec-worded candidate, the deterministic
128-bit hash of the UTF-8 bytes of the name reduced modulo 2 to the 31. -/
def specCandidate (strategy_name : String) : Nat :=
  md5Nat strategy_name % 2 ^ 31

/-- The collision-resolution while loop of register_strategy, made total with
fuel (the loop can only run forever when all 2 to the 31 magics are taken). -/
def probeMagic (reg : StrategyRegistry) : Nat → Nat → Nat
  | 0, m => m
  | fuel + 1, m =>
    if magicUsed reg m then probeMagic reg fuel ((m + 1) % 2 ^ 31) else m

/-- StrategyRegistry.register_strategy. -/
def register_strategy (reg : StrategyRegistry) (strategy_name : String) :
    Nat × StrategyRegistry :=
  match dlookup reg.strategy_to_magic strategy_name with
  | some m => (m, reg)
  | none =>
    let m := probeMagic reg (2 ^ 31) (md5Candidate strategy_name)
    (m, ⟨dinsert reg.strategy_to_magic strategy_name m,
         dinsert reg.magic_to_strategy m strategy_name⟩)

/-- StrategyRegistry.get_magic_number. -/
def get_magic_number (reg : StrategyRegistry) (strategy_name : String) :
    Option Nat :=
  dlookup reg.strategy_to_magic strategy_name

/-! ## Order executor (order_executor.OrderExecutor) -/

/-- Decimal digits of n, least significant first, with explicit fuel. -/
def natDecAux : Nat → Nat → List Nat
  | 0, _ => []
  | fuel + 1, n => if n = 0 then [] else n % 10 :: natDecAux fuel (n / 10)

/-- Decimal digit character. -/
def digitChar (d : Nat) : Char := Char.ofNat (48 + d)

/-- Decimal string of a Nat (str of Python applied to the magic number). -/
def natDecStr (n : Nat) : String :=
  if n = 0 then "0" else String.mk (((natDecAux (n + 1) n).reverse).map digitChar)

/-- OrderExecutor._generate_position_key: "{symbol}_{magic}" when a magic
number is present, the bare symbol otherwise. -/
def generate_position_key (symbol : String) (magic_number : Option Nat) : String :=
  match magic_number with
  | some m => symbol ++ "_" ++ natDecStr m
  | none => symbol

/-- The local mirror open_positions of the executor: dict keyed by position key. -/
abbrev Mirror : Type := List (String × Position)

/-- OrderExecutor.sync_state: on broker success clear and rebuild the mirror
from the returned positions; on broker error leave the mirror untouched. -/
def sync_state (resp : Except Unit (List Position)) (mirror : Mirror) : Mirror :=
  match resp with
  | .error _ => mirror
  | .ok ps =>
    ps.foldl
      (fun acc p => dinsert acc (generate_position_key p.symbol p.magic_number) p)
      []

/-- OrderExecutor._register_position: the locally registered Position, with
entry_price 0 and strategy_name taken from the order comment (or "unknown"). -/
def register_position (now : Nat) (mirror : Mirror) (req : OrderRequest) : Mirror :=
  dinsert mirror (generate_position_key req.symbol req.magic_number)
    { symbol := req.symbol
      volume := req.volume
      entry_price := 0
      stop_loss := req.stop_loss
      take_profit := req.take_profit
      strategy_name := req.comment.getD "unknown"
      open_time := now
      magic_number := req.magic_number }

/-- OrderExecutor._remove_position: with a magic number, delete the entry at
the position key; without one, delete every entry whose position symbol
matches. -/
def remove_position (mirror : Mirror) (symbol : String)
    (magic_number : Option Nat) : Mirror :=
  match magic_number with
  | some m => derase mirror (generate_position_key symbol (some m))
  | none => mirror.filter (fun kv => decide (kv.2.symbol ≠ symbol))

/-- OrderExecutor.execute_order: dispatch via the broker oracle; on success a
BUY or SELL registers a position and a CLOSE removes positions; on rejection
the mirror is unchanged. -/
def execute_order (ordResp : OrderRequest → OrderResult) (now : Nat)
    (mirror : Mirror) (req : OrderRequest) : Mirror × OrderResult :=
  let result := ordResp req
  if result.success then
    if req.order_type = "BUY" ∨ req.order_type = "SELL" then
      (register_position now mirror req, result)
    else if req.order_type = "CLOSE" then
      (remove_position mirror req.symbol req.magic_number, result)
    else (mirror, result)
  else (mirror, result)

/-- OrderExecutor.has_open_position: direct key probe when a magic number is
given, otherwise a linear scan by symbol and strategy-name prefix. -/
def has_open_position (mirror : Mirror) (symbol : String)
    (strategy_name : Option String) (magic_number : Option Nat) : Bool :=
  match magic_number with
  | some m =>
    (dlookup mirror (generate_position_key symbol (some m))).isSome
  | none =>
    mirror.any (fun kv =>
      kv.2.symbol = symbol &&
        match strategy_name with
        | none => true
        | some sn => kv.2.strategy_name.startsWith sn)

/-! ## Market-data service (data_fetcher.MarketDataService) -/

/-- One OHLCV bar (open, high, low, close, volume). -/
structure Bar where
  op : Rat
  hi : Rat
  lo : Rat
  cl : Rat
  vol : Rat
deriving DecidableEq

/-- A bar series: rows of (timestamp in minutes, bar), index order preserved. -/
abbrev DataFrame : Type := List (Nat × Bar)

/-- data_fetcher._TIMEFRAME_MAP (note: the source map has no M30 entry). -/
def TIMEFRAME_MAP (tf : String) : Option String :=
  match tf with
  | "M1" => some "1min"
  | "M5" => some "5min"
  | "M15" => some "15min"
  | "H1" => some "1H"
  | "H4" => some "4H"
  | "D1" => some "1D"
  | _ => none

/-- Minute count of a pandas frequency string produced by TIMEFRAME_MAP. -/
def freqMinutes (freq : String) : Nat :=
  match freq with
  | "1min" => 1
  | "5min" => 5
  | "15min" => 15
  | "1H" => 60
  | "4H" => 240
  | "1D" => 1440
  | _ => 1

/-- The ordered closed timeframe list used by the compatibility checks
(tf_order in data_fetcher and bot_engine). -/
def tfOrder : List String := ["M1", "M5", "M15", "M30", "H1", "H4", "D1"]

/-- MarketDataService._is_timeframe_compatible: target at least as coarse as
base by tf_order index; timeframes outside tf_order are assumed compatible. -/
def is_timeframe_compatible (base_tf target_tf : String) : Bool :=
  match tfOrder.indexOf? base_tf, tfOrder.indexOf? target_tf with
  | some bi, some ti => bi ≤ ti
  | _, _ => true

/-- First-occurrence deduplication, modelling the contents of a Python set. -/
def dedupAux {α : Type} [DecidableEq α] : List α → List α → List α
  | [], _ => []
  | x :: rest, seen =>
    if x ∈ seen then dedupAux rest seen else x :: dedupAux rest (x :: seen)

/-- First-occurrence deduplication of a list. -/
def dedupList {α : Type} [DecidableEq α] (l : List α) : List α := dedupAux l []

/-- Resampling bucket start for a timestamp at a given frequency in minutes. -/
def bucketOf (f t : Nat) : Nat := t - t % f

/-- Maximum of a list of rationals (0 on the empty list, unused there). -/
def maxList : List Rat → Rat
  | [] => 0
  | x :: rest => rest.foldl max x

/-- Minimum of a list of rationals (0 on the empty list, unused there). -/
def minList : List Rat → Rat
  | [] => 0
  | x :: rest => rest.foldl min x

/-- Aggregation of the rows of one resampling bucket: first open, max high,
min low, last close, summed volume. -/
def aggBar (rows : List (Nat × Bar)) : Bar :=
  { op := ((rows.head?.map (fun r => r.2.op)).getD 0)
    hi := maxList (rows.map (fun r => r.2.hi))
    lo := minList (rows.map (fun r => r.2.lo))
    cl := ((rows.getLast?.map (fun r => r.2.cl)).getD 0)
    vol := (rows.map (fun r => r.2.vol)).sum }

/-- pandas resample-and-aggregate at a frequency of f minutes: group rows by
bucket start, aggregate each bucket, and drop empty buckets. -/
def resample (raw : DataFrame) (f : Nat) : DataFrame :=
  let buckets := dedupList (raw.map (fun r => bucketOf f r.1))
  buckets.filterMap (fun b =>
    match raw.filter (fun r => decide (bucketOf f r.1 = b)) with
    | [] => none
    | rows => some (b, aggBar rows))

/-- Failure modes of get_resampled_data: ValueError on an unsupported base or
target timeframe, RuntimeError when the broker fetch fails. -/
inductive FetchErr where
  | unsupportedBase (tf : String)
  | unsupportedTarget (tf : String)
  | dataFetchFailed
deriving DecidableEq

instance {e a : Type} [DecidableEq e] [DecidableEq a] : DecidableEq (Except e a) :=
  fun x y =>
    match x, y with
    | .ok v, .ok w =>
      if h : v = w then isTrue (by rw [h]) else isFalse (by intro hc; cases hc; exact h rfl)
    | .error v, .error w =>
      if h : v = w then isTrue (by rw [h]) else isFalse (by intro hc; cases hc; exact h rfl)
    | .ok _, .error _ => isFalse (by intro hc; cases hc)
    | .error _, .ok _ => isFalse (by intro hc; cases hc)

/-- The resampled targets appended after the base entry: every requested
frequency other than the base, resampled from the base data. -/
def resampleAll (raw : DataFrame) (base : String) (freqs : List String) :
    List (String × DataFrame) :=
  freqs.filterMap (fun tf =>
    if tf = base then none
    else
      match TIMEFRAME_MAP tf with
      | none => none
      | some fs => some (tf, resample raw (freqMinutes fs)))

/-- MarketDataService.get_resampled_data: validate the base and every target
against TIMEFRAME_MAP, fetch the base series, and return the dict from
timeframe to series (base unmodified, other targets resampled). The data
window bounds are absorbed into the fetch oracle. -/
def get_resampled_data (fetch : Except Unit DataFrame) (min_timeframe : String)
    (target_timeframes : List String) :
    Except FetchErr (List (String × DataFrame)) :=
  let frequencies := dedupList (target_timeframes ++ [min_timeframe])
  match TIMEFRAME_MAP min_timeframe with
  | none => .error (.unsupportedBase min_timeframe)
  | some _ =>
    match frequencies.find? (fun tf => (TIMEFRAME_MAP tf).isNone) with
    | some tf => .error (.unsupportedTarget tf)
    | none =>
      match fetch with
      | .error _ => .error .dataFetchFailed
      | .ok raw =>
        if raw = [] then .ok [(min_timeframe, raw)]
        else .ok ((min_timeframe, raw) :: resampleAll raw min_timeframe frequencies)

/-! ## Cycle engine (bot_engine.TradingBot) -/

/-- The dict from timeframe to bar series handed to strategies. -/
abbrev DataMap : Type := List (String × DataFrame)

/-- A pluggable strategy: name, required timeframes, optional symbol
restriction, and the signal generator. -/
structure Strategy where
  name : String
  timeframes : List String
  allowed_symbols : Option (List String)
  generate_signals : DataMap → List Signal

/-- The TradingBot configuration: risk limits, strategies, symbols. -/
structure BotConfig where
  risk_limits : RiskLimits
  strategies : List Strategy
  symbols : List SymbolConfig

/-- The mutable TradingBot state across cycles. -/
structure BotState where
  open_positions : Mirror
  trade_history : List TradeRecord
  registry : StrategyRegistry

/-- The broker responses consumed by one run_once cycle: get_open_positions,
get_closed_trades, get_ohlcv per symbol name, send_market_order, and the
current time. -/
structure CycleInputs where
  open_positions_resp : Except Unit (List Position)
  closed_trades_resp : Except Unit (List TradeRecord)
  fetch : String → Except Unit DataFrame
  order_resp : OrderRequest → OrderResult
  now : Nat

/-- The tuple identifying a closed trade in _update_trade_history. -/
def tradeKey (t : TradeRecord) : Nat × Nat × String × String :=
  (t.entry_time, t.exit_time, t.symbol, t.strategy_name)

/-- TradingBot._update_trade_history: append the closed trades whose tuple is
not in the prior history; the membership set is computed once before the
loop, so it is not updated by the appends themselves. On a broker error the
history is unchanged. -/
def update_trade_history (resp : Except Unit (List TradeRecord))
    (history : List TradeRecord) : List TradeRecord :=
  match resp with
  | .error _ => history
  | .ok closed =>
    let existing := history.map tradeKey
    history ++ closed.filter (fun t => decide (tradeKey t ∉ existing))

/-- Whether a strategy operates a symbol (no allowed_symbols restriction, or
the symbol is contained in it). -/
def canOperate (strat : Strategy) (symbol : String) : Bool :=
  match strat.allowed_symbols with
  | none => true
  | some allowed => symbol ∈ allowed

/-- The timeframes required by the strategies eligible for a symbol. -/
def requiredTimeframes (strategies : List Strategy) (symbol : String) :
    List String :=
  dedupList (strategies.foldr
    (fun strat acc => (if canOperate strat symbol then strat.timeframes else []) ++ acc)
    [])

/-- The compatibility filter of run_once: keep timeframes at least as coarse
as min_timeframe by tf_order index; timeframes outside tf_order are kept, and
an unknown min_timeframe keeps everything. -/
def filterCompatible (min_timeframe : String) (tfs : List String) : List String :=
  match tfOrder.indexOf? min_timeframe with
  | none => tfs
  | some minIdx =>
    tfs.filter (fun tf =>
      match tfOrder.indexOf? tf with
      | none => true
      | some i => minIdx ≤ i)

/-- The order request built by run_once from a signal and a magic number, with
comment "{strategy_name}-{timeframe}". -/
def buildOrderRequest (sig : Signal) (magic : Nat) : OrderRequest :=
  { symbol := sig.symbol
    volume := sig.size
    order_type := sig.signal_type.value
    stop_loss := sig.stop_loss
    take_profit := sig.take_profit
    comment := some (sig.strategy_name ++ "-" ++ sig.timeframe)
    magic_number := some magic }

/-- The per-signal dispatch loop of run_once for one strategy: skip BUY and
SELL duplicates by has_open_position, skip CLOSE without a matching open
position, ignore HOLD, and collect the dispatched order requests. -/
def processSignals (ordResp : OrderRequest → OrderResult) (now : Nat)
    (strategyName : String) (magic : Nat) :
    List Signal → Mirror → Mirror × List OrderRequest
  | [], mirror => (mirror, [])
  | sig :: rest, mirror =>
    if sig.signal_type = SignalType.BUY ∨ sig.signal_type = SignalType.SELL then
      if has_open_position mirror sig.symbol (some strategyName) (some magic) then
        processSignals ordResp now strategyName magic rest mirror
      else
        let req := buildOrderRequest sig magic
        let step := execute_order ordResp now mirror req
        let restOut := processSignals ordResp now strategyName magic rest step.1
        (restOut.1, req :: restOut.2)
    else if sig.signal_type = SignalType.CLOSE then
      if has_open_position mirror sig.symbol (some strategyName) (some magic) then
        let req := buildOrderRequest sig magic
        let step := execute_order ordResp now mirror req
        let restOut := processSignals ordResp now strategyName magic rest step.1
        (restOut.1, req :: restOut.2)
      else
        processSignals ordResp now strategyName magic rest mirror
    else
      processSignals ordResp now strategyName magic rest mirror

/-- The per-strategy loop of run_once for one symbol: risk-gate the strategy,
generate its signals on the fetched data, resolve its magic number
(registering lazily when missing), and dispatch its signals. -/
def processStrategies (ordResp : OrderRequest → OrderResult) (now : Nat)
    (limits : RiskLimits) (history : List TradeRecord) (data : DataMap) :
    List Strategy → Mirror × StrategyRegistry →
    (Mirror × StrategyRegistry) × List OrderRequest
  | [], st => (st, [])
  | strat :: rest, st =>
    if check_strategy_risk_limits limits strat.name history then
      let sigs := strat.generate_signals data
      let magicReg : Nat × StrategyRegistry :=
        match get_magic_number st.2 strat.name with
        | some m => (m, st.2)
        | none => register_strategy st.2 strat.name
      let sigOut := processSignals ordResp now strat.name magicReg.1 sigs st.1
      let restOut :=
        processStrategies ordResp now limits history data rest (sigOut.1, magicReg.2)
      (restOut.1, sigOut.2 ++ restOut.2)
    else
      processStrategies ordResp now limits history data rest st

/-- The per-symbol loop of run_once: risk-gate the symbol, compute and filter
the required timeframes, fetch and resample the data (skipping the symbol on
any data error), then run every strategy. -/
def processSymbols (inp : CycleInputs) (limits : RiskLimits)
    (strategies : List Strategy) (history : List TradeRecord) :
    List SymbolConfig → Mirror × StrategyRegistry →
    (Mirror × StrategyRegistry) × List OrderRequest
  | [], st => (st, [])
  | sym :: rest, st =>
    if check_symbol_risk_limits limits sym.name history then
      let required := requiredTimeframes strategies sym.name
      if required = [] then
        processSymbols inp limits strategies history rest st
      else
        let compatible := filterCompatible sym.min_timeframe required
        if compatible = [] then
          processSymbols inp limits strategies history rest st
        else
          match get_resampled_data (inp.fetch sym.name) sym.min_timeframe compatible with
          | .error _ => processSymbols inp limits strategies history rest st
          | .ok data =>
            let symOut :=
              processStrategies inp.order_resp inp.now limits history data strategies st
            let restOut := processSymbols inp limits strategies history rest symOut.1
            (restOut.1, symOut.2 ++ restOut.2)
    else
      processSymbols inp limits strategies history rest st

/-- TradingBot.run_once: sync the mirror, update the trade history, stop at
the global risk gate, otherwise run every symbol; returns the new state and
the order requests dispatched to the broker this cycle. -/
def run_once (cfg : BotConfig) (inp : CycleInputs) (st : BotState) :
    BotState × List OrderRequest :=
  let mirror1 := sync_state inp.open_positions_resp st.open_positions
  let history1 := update_trade_history inp.closed_trades_resp st.trade_history
  if check_bot_risk_limits cfg.risk_limits history1 then
    let out :=
      processSymbols inp cfg.risk_limits cfg.strategies history1 cfg.symbols
        (mirror1, st.registry)
    (⟨out.1.1, history1, out.1.2⟩, out.2)
  else
    (⟨mirror1, history1, st.registry⟩, [])

/-- A sequence of cycles: run run_once on consecutive broker responses,
concatenating the dispatched orders. -/
def runCycles (cfg : BotConfig) : List CycleInputs → BotState →
    BotState × List OrderRequest
  | [], st => (st, [])
  | inp :: rest, st =>
    let out := run_once cfg inp st
    let restOut := runCycles cfg rest out.1
    (restOut.1, out.2 ++ restOut.2)

/-- Whether an order request is a BUY or SELL for symbol X attributed (by
magic number) to the strategy with magic m. -/
def isOurOrder (X : String) (m : Nat) (o : OrderRequest) : Bool :=
  o.symbol = X && o.magic_number = some m &&
    (o.order_type = "BUY" || o.order_type = "SELL")

/-- The number of BUY and SELL orders for (X, m) in a dispatched-order list. -/
def countOurs (X : String) (m : Nat) (orders : List OrderRequest) : Nat :=
  (orders.filter (isOurOrder X m)).length

/-- The hypothesis that the broker keeps reporting the mirrored position with
the given key as open: in each cycle, whenever the pre-cycle mirror holds the
key and get_open_positions succeeds, some returned position carries that key. -/
inductive KeepsOpen (cfg : BotConfig) (key : String) :
    BotState → List CycleInputs → Prop
  | nil (st : BotState) : KeepsOpen cfg key st []
  | cons (st : BotState) (inp : CycleInputs) (rest : List CycleInputs) :
      (∀ ps, inp.open_positions_resp = Except.ok ps →
        (dlookup st.open_positions key).isSome = true →
        ∃ p ∈ ps, generate_position_key p.symbol p.magic_number = key) →
      KeepsOpen cfg key (run_once cfg inp st).1 rest →
      KeepsOpen cfg key st (inp :: rest)

/-! ## Concrete witness inputs used by the claim witnesses below -/

/-- Risk limits of the spec gate-trip scenario: balance 100, dd_global 50. -/
def c3Limits : RiskLimits := ⟨some 50, [], [], 100⟩

/-- Trade history of the spec gate-trip scenario: pnl +1000 then -600. -/
def c3Trades : List TradeRecord :=
  [⟨"EURUSD", "S", 0, 1, 1, 2, 1, 1000, none, none⟩,
   ⟨"EURUSD", "S", 1, 2, 2, 1, 1, -600, none, none⟩]

/-- A closed trade returned twice by the broker in the same batch. -/
def c9Trade : TradeRecord := ⟨"EURUSD", "S", 0, 5, 1, 1, 1, 1, none, none⟩

/-- The broker oracle of the C7 witness: accept everything. -/
def c7Resp : OrderRequest → OrderResult := fun _ => ⟨true, some 1, none⟩

/-- The order request of the C7 witness. -/
def c7Req : OrderRequest := ⟨"EURUSD", 1, "BUY", none, none, some "S-M1", some 7⟩

/-- The duplicate broker position of the C6 counterexample. -/
def c6Pos : Position := ⟨"EURUSD", 1, 1, none, none, "S", 0, some 7⟩

/-- The nonempty base series of the C5 counterexample and witness, two
M5-aligned bars. -/
def c5Raw : DataFrame := [(0, ⟨1, 1, 1, 1, 1⟩), (5, ⟨1, 1, 1, 1, 1⟩)]

/-- The committed BUY request of the C10 witness, with comment "S-M1". -/
def c10Req : OrderRequest := ⟨"EURUSD", 1, "BUY", none, none, some "S-M1", some 7⟩

/-- The losing closed trade that trips the global gate in the C2 witness. -/
def c2Trade : TradeRecord := ⟨"EURUSD", "S", 0, 1, 1, 1, 1, -50, none, none⟩

/-- The configuration of the C2 witness: balance 100, dd_global 40. -/
def c2Cfg : BotConfig := ⟨⟨some 40, [], [], 100⟩, [], [⟨"EURUSD", "M1", 1⟩]⟩

/-- The cycle inputs of the C2 witness: the broker reports the losing trade. -/
def c2Inp : CycleInputs :=
  ⟨Except.error (), Except.ok [c2Trade], fun _ => Except.error (),
   fun _ => ⟨true, some 1, none⟩, 0⟩

/-- The initial state of the C2 witness. -/
def c2St : BotState := ⟨[], [], ⟨[], []⟩⟩

/-- The broker order oracle of the C1 witness: accept everything. -/
def c1Resp : OrderRequest → OrderResult := fun _ => ⟨true, some 1, none⟩

/-- The BUY signal the C1 witness strategy emits every cycle. -/
def c1Sig : Signal := ⟨"EURUSD", "S", "M1", SignalType.BUY, 1, none, none⟩

/-- The C1 witness strategy: emits the BUY signal on every cycle. -/
def c1Strat : Strategy := ⟨"S", ["M1"], none, fun _ => [c1Sig]⟩

/-- The C1 witness configuration: no risk limits, one strategy, one symbol. -/
def c1Cfg : BotConfig := ⟨⟨none, [], [], 10000⟩, [c1Strat], [⟨"EURUSD", "M1", 1⟩]⟩

/-- The C1 witness start state: empty mirror, strategy S registered as 7. -/
def c1St : BotState := ⟨[], [], ⟨[("S", 7)], [(7, "S")]⟩⟩

/-- The C1 witness cycle inputs: position sync and closed trades error out
(mirror untouched), the data fetch returns two bars, orders all succeed. -/
def c1Inp : CycleInputs :=
  ⟨Except.error (), Except.error (),
   fun _ => Except.ok [(0, ⟨1, 1, 1, 1, 1⟩), (1, ⟨1, 2, 1, 2, 1⟩)], c1Resp, 0⟩

/-- The broker order oracle of the C10 witness: accept everything. -/
def c10Resp : OrderRequest → OrderResult := fun _ => ⟨true, some 1, none⟩

/-! ## Dict lemmas -/

theorem dlookup_dinsert_self {κ α : Type} [DecidableEq κ]
    (d : List (κ × α)) (k : κ) (v : α) : dlookup (dinsert d k v) k = some v := by
  induction d with
  | nil => simp [dinsert, dlookup]
  | cons kv rest ih =>
    by_cases h : kv.1 = k
    · simp [dinsert, dlookup, h]
    · simp [dinsert, dlookup, h, ih]

theorem dlookup_dinsert_ne {κ α : Type} [DecidableEq κ]
    (d : List (κ × α)) (k k2 : κ) (v : α) (h : k2 ≠ k) :
    dlookup (dinsert d k v) k2 = dlookup d k2 := by
  have hkk : ¬ k = k2 := fun h2 => h h2.symm
  induction d with
  | nil => simp [dinsert, dlookup, hkk]
  | cons kv rest ih =>
    by_cases hk : kv.1 = k
    · simp [dinsert, dlookup, hk, hkk]
    · by_cases hk2 : kv.1 = k2
      · simp [dinsert, dlookup, hk, hk2, h]
      · simp [dinsert, dlookup, hk, hk2, ih]

theorem dlookup_derase_ne {κ α : Type} [DecidableEq κ]
    (d : List (κ × α)) (k k2 : κ) (h : k2 ≠ k) :
    dlookup (derase d k) k2 = dlookup d k2 := by
  have hkk : ¬ k = k2 := fun h2 => h h2.symm
  induction d with
  | nil => simp [derase]
  | cons kv rest ih =>
    by_cases hk : kv.1 = k
    · simp [derase, dlookup, hk, hkk, ih]
    · by_cases hk2 : kv.1 = k2
      · simp [derase, dlookup, hk, hk2, h]
      · simp [derase, dlookup, hk, hk2, ih]

theorem dlookup_derase_self {κ α : Type} [DecidableEq κ]
    (d : List (κ × α)) (k : κ) : dlookup (derase d k) k = none := by
  induction d with
  | nil => simp [derase, dlookup]
  | cons kv rest ih =>
    by_cases hk : kv.1 = k
    · simp [derase, hk, ih]
    · simp [derase, dlookup, hk, ih]

theorem dlookup_isSome_iff {κ α : Type} [DecidableEq κ]
    (d : List (κ × α)) (k : κ) :
    (dlookup d k).isSome = true ↔ ∃ v, (k, v) ∈ d := by
  induction d with
  | nil => simp [dlookup]
  | cons kv rest ih =>
    by_cases hk : kv.1 = k
    · subst hk
      refine ⟨fun _ => ⟨kv.2, by simp⟩, fun _ => by simp [dlookup]⟩
    · simp only [dlookup, hk, if_false, ih]
      constructor
      · rintro ⟨v, hv⟩
        exact ⟨v, List.mem_cons_of_mem _ hv⟩
      · rintro ⟨v, hv⟩
        rcases List.mem_cons.1 hv with h | h
        · exact absurd (congrArg Prod.fst h.symm) hk
        · exact ⟨v, h⟩

theorem dlookup_dinsert_isSome {κ α : Type} [DecidableEq κ]
    (d : List (κ × α)) (k k2 : κ) (v : α) :
    (dlookup (dinsert d k v) k2).isSome = true ↔
      k2 = k ∨ (dlookup d k2).isSome = true := by
  by_cases h : k2 = k
  · subst h
    simp [dlookup_dinsert_self]
  · simp [dlookup_dinsert_ne d k k2 v h, h]

/-! ## Decimal rendering and position-key injectivity -/

theorem natDecAux_eq_digits (fuel : Nat) :
    ∀ n, n ≤ fuel → natDecAux fuel n = Nat.digits 10 n := by
  induction fuel with
  | zero =>
    intro n hn
    interval_cases n
    simp [natDecAux]
  | succ fuel ih =>
    intro n hn
    by_cases h0 : n = 0
    · subst h0; simp [natDecAux]
    · have hlt : n / 10 ≤ fuel := by
        have : n / 10 < n := Nat.div_lt_self (Nat.pos_of_ne_zero h0) (by norm_num)
        omega
      rw [natDecAux, if_neg h0, ih (n / 10) hlt,
        Nat.digits_def' (by norm_num : 1 < 10) (Nat.pos_of_ne_zero h0)]

theorem digitChar_inj : ∀ d1 < 10, ∀ d2 < 10, digitChar d1 = digitChar d2 → d1 = d2 := by
  decide

theorem digitChar_ne_underscore : ∀ d < 10, digitChar d ≠ '_' := by
  decide

theorem map_digitChar_inj :
    ∀ (l1 l2 : List Nat), (∀ d ∈ l1, d < 10) → (∀ d ∈ l2, d < 10) →
      l1.map digitChar = l2.map digitChar → l1 = l2 := by
  intro l1
  induction l1 with
  | nil =>
    intro l2 _ _ h
    cases l2 with
    | nil => rfl
    | cons x xs => simp at h
  | cons x xs ih =>
    intro l2 h1 h2 h
    cases l2 with
    | nil => simp at h
    | cons y ys =>
      simp only [List.map_cons, List.cons.injEq] at h
      have hx : x = y :=
        digitChar_inj x (h1 x (by simp)) y (h2 y (by simp)) h.1
      have hxs : xs = ys :=
        ih ys (fun d hd => h1 d (by simp [hd])) (fun d hd => h2 d (by simp [hd])) h.2
      rw [hx, hxs]

theorem natDecStr_no_underscore (n : Nat) : '_' ∉ (natDecStr n).data := by
  by_cases h0 : n = 0
  · subst h0
    decide
  · rw [natDecStr, if_neg h0]
    intro hmem
    simp only [String.data] at hmem
    rcases List.mem_map.1 hmem with ⟨d, hd, hdc⟩
    have hd10 : d < 10 :=
      Nat.digits_lt_base (by norm_num)
        (by rw [natDecAux_eq_digits (n + 1) n (Nat.le_succ n)] at hd
            exact List.mem_reverse.1 hd)
    exact digitChar_ne_underscore d hd10 hdc

theorem natDecStr_ne_zero_str (m : Nat) (hm : m ≠ 0) : natDecStr m ≠ "0" := by
  intro h
  rw [natDecStr, if_neg hm, natDecAux_eq_digits (m + 1) m (Nat.le_succ m)] at h
  have hdata : ((Nat.digits 10 m).reverse).map digitChar = ['0'] := by
    have := congrArg String.data h
    simpa using this
  rcases hd : Nat.digits 10 m with _ | ⟨d, ds⟩
  · exact (@Nat.digits_ne_nil_iff_ne_zero 10 m).2 hm hd
  · rcases ds with _ | ⟨e, es⟩
    · rw [hd] at hdata
      simp only [List.reverse_cons, List.reverse_nil, List.nil_append,
        List.map_cons, List.map_nil, List.cons.injEq, and_true] at hdata
      have hd10 : d < 10 := Nat.digits_lt_base (by norm_num) (by rw [hd]; simp)
      have hd0 : d = 0 := digitChar_inj d hd10 0 (by norm_num) (by simpa using hdata)
      have hm0 : m = Nat.ofDigits 10 [0] := by
        have := (Nat.ofDigits_digits 10 m).symm
        rw [hd, hd0] at this
        exact this
      simp [Nat.ofDigits] at hm0
      exact hm hm0
    · rw [hd] at hdata
      have := congrArg List.length hdata
      simp at this

theorem natDecStr_injective (m1 m2 : Nat) (h : natDecStr m1 = natDecStr m2) :
    m1 = m2 := by
  by_cases h1 : m1 = 0 <;> by_cases h2 : m2 = 0
  · rw [h1, h2]
  · exfalso
    apply natDecStr_ne_zero_str m2 h2
    rw [← h, h1]
    rfl
  · exfalso
    apply natDecStr_ne_zero_str m1 h1
    rw [h, h2]
    rfl
  · rw [natDecStr, if_neg h1, natDecStr, if_neg h2,
      natDecAux_eq_digits (m1 + 1) m1 (Nat.le_succ m1),
      natDecAux_eq_digits (m2 + 1) m2 (Nat.le_succ m2)] at h
    have hdata := congrArg String.data h
    simp only [String.data] at hdata
    have hrev : (Nat.digits 10 m1).reverse = (Nat.digits 10 m2).reverse :=
      map_digitChar_inj _ _
        (fun d hd => Nat.digits_lt_base (by norm_num) (List.mem_reverse.1 hd))
        (fun d hd => Nat.digits_lt_base (by norm_num) (List.mem_reverse.1 hd))
        hdata
    have hdig : Nat.digits 10 m1 = Nat.digits 10 m2 :=
      List.reverse_injective hrev
    calc m1 = Nat.ofDigits 10 (Nat.digits 10 m1) := (Nat.ofDigits_digits 10 m1).symm
    _ = Nat.ofDigits 10 (Nat.digits 10 m2) := by rw [hdig]
    _ = m2 := Nat.ofDigits_digits 10 m2

theorem underscore_split_inj :
    ∀ (l1 l2 d1 d2 : List Char), '_' ∉ d1 → '_' ∉ d2 →
      l1 ++ '_' :: d1 = l2 ++ '_' :: d2 → l1 = l2 ∧ d1 = d2 := by
  intro l1
  induction l1 with
  | nil =>
    intro l2 d1 d2 h1 h2 h
    cases l2 with
    | nil => simpa using h
    | cons y ys =>
      exfalso
      simp only [List.nil_append, List.cons_append, List.cons.injEq] at h
      exact h1 (h.2 ▸ List.mem_append_right ys (by simp [h.1]))
  | cons x xs ih =>
    intro l2 d1 d2 h1 h2 h
    cases l2 with
    | nil =>
      exfalso
      simp only [List.nil_append, List.cons_append, List.cons.injEq] at h
      exact h2 (h.2 ▸ List.mem_append_right xs (by simp [← h.1]))
    | cons y ys =>
      simp only [List.cons_append, List.cons.injEq] at h
      obtain ⟨hl, hd⟩ := ih ys d1 d2 h1 h2 h.2
      exact ⟨by rw [h.1, hl], hd⟩

theorem generate_position_key_inj (s1 s2 : String) (m1 m2 : Nat)
    (h : generate_position_key s1 (some m1) = generate_position_key s2 (some m2)) :
    s1 = s2 ∧ m1 = m2 := by
  simp only [generate_position_key] at h
  have hdata := congrArg String.data h
  rw [String.data_append, String.data_append, String.data_append,
    String.data_append] at hdata
  have hdata2 : s1.data ++ '_' :: (natDecStr m1).data =
      s2.data ++ '_' :: (natDecStr m2).data := by
    simpa [List.append_assoc] using hdata
  obtain ⟨hs, hm⟩ := underscore_split_inj s1.data s2.data _ _
    (natDecStr_no_underscore m1) (natDecStr_no_underscore m2) hdata2
  exact ⟨String.ext hs, natDecStr_injective m1 m2 (String.ext hm)⟩

/-! ## C3: check_bot_risk_limits against the spec drawdown algorithm -/

theorem if_lt_max (a b : Rat) : (if a < b then b else a) = max a b := by
  split
  · exact (max_eq_right (le_of_lt (by assumption))).symm
  · exact (max_eq_left (le_of_not_lt (by assumption))).symm

theorem drawdownStep_eq_specStep : drawdownStep = drawdownSpecStep := by
  funext acc t
  simp only [drawdownStep, drawdownSpecStep, gt_iff_lt, if_lt_max]

theorem calculate_drawdown_eq_spec (limits : RiskLimits)
    (trades : List TradeRecord) :
    calculate_drawdown limits trades = drawdownSpec limits.initial_balance trades := by
  cases trades with
  | nil => rfl
  | cons t rest =>
    rw [show calculate_drawdown limits (t :: rest) =
        ((t :: rest).foldl drawdownStep
          (limits.initial_balance, limits.initial_balance, 0)).2.2 from rfl,
      drawdownSpec, drawdownStep_eq_specStep]

theorem peak_le_foldl :
    ∀ (l : List TradeRecord) (e p d : Rat),
      p ≤ (l.foldl drawdownStep (e, p, d)).2.1 := by
  intro l
  induction l with
  | nil => intro e p d; exact le_refl p
  | cons t rest ih =>
    intro e p d
    refine le_trans ?_ (ih (e + t.pnl) _ _)
    by_cases hlt : e + t.pnl > p
    · simp only [drawdownStep, if_pos hlt]
      exact le_of_lt hlt
    · simp only [drawdownStep, if_neg hlt]
      exact le_refl p

/-- C3: with initial_balance positive, check_bot_risk_limits returns true iff
dd_global is unset or the spec reference equity-curve max drawdown is at most
dd_global; the code drawdown equals the spec reference drawdown, the empty
trade list yields drawdown 0, and the running peak that every division is
taken against stays positive after every prefix of the trades. -/
theorem c3_check_bot_risk_limits (limits : RiskLimits) (trades : List TradeRecord)
    (h : 0 < limits.initial_balance) :
    (check_bot_risk_limits limits trades = true ↔
      ∀ dd ∈ limits.dd_global, drawdownSpec limits.initial_balance trades ≤ dd)
    ∧ calculate_drawdown limits trades = drawdownSpec limits.initial_balance trades
    ∧ drawdownSpec limits.initial_balance [] = 0
    ∧ ∀ pre suf, trades = pre ++ suf →
        0 < (pre.foldl drawdownStep
          (limits.initial_balance, limits.initial_balance, 0)).2.1 := by
  refine ⟨?_, calculate_drawdown_eq_spec limits trades, rfl, ?_⟩
  · cases hdd : limits.dd_global with
    | none => simp [check_bot_risk_limits, hdd]
    | some dd =>
      simp [check_bot_risk_limits, hdd, calculate_drawdown_eq_spec]
  · intro pre suf _
    exact lt_of_lt_of_le h (peak_le_foldl pre _ _ _)

theorem c3_check_bot_risk_limits_witness :
    0 < c3Limits.initial_balance ∧
      (check_bot_risk_limits c3Limits c3Trades = true ↔
        ∀ dd ∈ c3Limits.dd_global,
          drawdownSpec c3Limits.initial_balance c3Trades ≤ dd) ∧
      check_bot_risk_limits c3Limits c3Trades = false :=
  ⟨by decide, (c3_check_bot_risk_limits c3Limits c3Trades (by decide)).1,
    by norm_num [check_bot_risk_limits, c3Limits, c3Trades, calculate_drawdown,
      drawdownStep, List.foldl]⟩

/-! ## C4: M30 is missing from the timeframe map -/

/-- C4: the spec closed timeframe set (tf_order in this very repository)
contains M30, every other member has a TIMEFRAME_MAP entry, yet TIMEFRAME_MAP
has no M30 entry, so get_resampled_data fails with the unsupported-timeframe
error on M30 as base and on M30 as target, against the claim that every
member of the closed set is accepted. -/
theorem c4_m30_unsupported :
    "M30" ∈ tfOrder
    ∧ (∀ tf ∈ tfOrder, tf ≠ "M30" → (TIMEFRAME_MAP tf).isSome = true)
    ∧ TIMEFRAME_MAP "M30" = none
    ∧ get_resampled_data (Except.ok []) "M30" ["H1"] =
        Except.error (FetchErr.unsupportedBase "M30")
    ∧ get_resampled_data (Except.ok []) "M1" ["M30"] =
        Except.error (FetchErr.unsupportedTarget "M30") := by
  decide

/-! ## C9: duplicate tuples in one closed-trades batch are both appended -/

/-- C9: starting from an empty history, a single get_closed_trades batch that
repeats one tuple makes _update_trade_history append both copies, so the
history holds two records with the same deduplication tuple, against the
at-most-one-record-per-tuple claim. -/
theorem c9_duplicate_tuples_appended :
    update_trade_history (Except.ok [c9Trade, c9Trade]) [] = [c9Trade, c9Trade]
    ∧ ¬ ((update_trade_history (Except.ok [c9Trade, c9Trade]) []).map tradeKey).Nodup := by
  constructor
  · decide
  · decide

/-! ## C7: execute_order mirror semantics -/

/-- C7: on broker rejection the mirror is unchanged; on an accepted BUY or
SELL a Position with entry price 0 and the comment as strategy name is
inserted at the (symbol, magic) key; on an accepted CLOSE with a magic number
the entry at that key is removed and every other key is untouched, and on an
accepted CLOSE without a magic number exactly the entries whose position
symbol matches are removed. -/
theorem c7_execute_order (ordResp : OrderRequest → OrderResult) (now : Nat)
    (mirror : Mirror) (req : OrderRequest) :
    ((ordResp req).success = false → (execute_order ordResp now mirror req).1 = mirror)
    ∧ ((ordResp req).success = true →
        (req.order_type = "BUY" ∨ req.order_type = "SELL") →
        (execute_order ordResp now mirror req).1 =
          dinsert mirror (generate_position_key req.symbol req.magic_number)
            ⟨req.symbol, req.volume, 0, req.stop_loss, req.take_profit,
             req.comment.getD "unknown", now, req.magic_number⟩)
    ∧ ((ordResp req).success = true → req.order_type = "CLOSE" →
        (∀ m, req.magic_number = some m →
          dlookup (execute_order ordResp now mirror req).1
              (generate_position_key req.symbol (some m)) = none
          ∧ ∀ k, k ≠ generate_position_key req.symbol (some m) →
              dlookup (execute_order ordResp now mirror req).1 k = dlookup mirror k)
        ∧ (req.magic_number = none →
            ∀ kv, kv ∈ (execute_order ordResp now mirror req).1 ↔
              kv ∈ mirror ∧ kv.2.symbol ≠ req.symbol)) := by
  refine ⟨?_, ?_, ?_⟩
  · intro hf
    simp [execute_order, hf]
  · intro hs ht
    rcases ht with h | h <;>
      simp [execute_order, hs, h, register_position]
  · intro hs ht
    have hnotbuy : ¬ (req.order_type = "BUY" ∨ req.order_type = "SELL") := by
      simp [ht]
    constructor
    · intro m hm
      constructor
      · simp [execute_order, hs, hnotbuy, ht, remove_position, hm,
          dlookup_derase_self]
      · intro k hk
        simp [execute_order, hs, hnotbuy, ht, remove_position, hm,
          dlookup_derase_ne _ _ _ hk]
    · intro hm kv
      simp [execute_order, hs, hnotbuy, ht, remove_position, hm, List.mem_filter]

theorem c7_execute_order_witness :
    (execute_order c7Resp 0 [] c7Req).1 =
      dinsert [] (generate_position_key c7Req.symbol c7Req.magic_number)
        ⟨c7Req.symbol, c7Req.volume, 0, c7Req.stop_loss, c7Req.take_profit,
         c7Req.comment.getD "unknown", 0, c7Req.magic_number⟩ :=
  (c7_execute_order c7Resp 0 [] c7Req).2.1 rfl (Or.inl rfl)

/-! ## C6: sync_state semantics -/

theorem dlookup_build (ps : List Position) (acc : Mirror) (k : String) :
    dlookup (ps.foldl
      (fun a p => dinsert a (generate_position_key p.symbol p.magic_number) p) acc) k =
      ((ps.filter
        (fun p => decide (generate_position_key p.symbol p.magic_number = k))).getLast?).elim
        (dlookup acc k) some := by
  induction ps generalizing acc with
  | nil => simp
  | cons p rest ih =>
    rw [List.foldl_cons, ih]
    by_cases hk : generate_position_key p.symbol p.magic_number = k
    · rw [List.filter_cons_of_pos (by simpa using hk)]
      rcases hrest : rest.filter
          (fun p => decide (generate_position_key p.symbol p.magic_number = k)) with
        _ | ⟨q, qs⟩
      · rw [hrest]
        subst hk
        simp [dlookup_dinsert_self]
      · rw [hrest, List.getLast?_cons_cons]
        cases hql : (q :: qs).getLast? with
        | none =>
          rw [List.getLast?_eq_none_iff] at hql
          cases hql
        | some l => simp [hql]
    · rw [List.filter_cons_of_neg (by simpa using hk),
        dlookup_dinsert_ne acc _ k p (fun h => hk h.symm)]

theorem filter_key_nodup :
    ∀ (ps : List Position),
      (ps.map (fun p => generate_position_key p.symbol p.magic_number)).Nodup →
      ∀ p ∈ ps,
        ps.filter (fun q => decide (generate_position_key q.symbol q.magic_number =
          generate_position_key p.symbol p.magic_number)) = [p] := by
  intro ps
  induction ps with
  | nil => intro _ p hp; cases hp
  | cons q rest ih =>
    intro hnd p hp
    rw [List.map_cons, List.nodup_cons] at hnd
    rcases List.mem_cons.1 hp with rfl | hrest
    · have hrestnil : rest.filter
          (fun r => decide (generate_position_key r.symbol r.magic_number =
            generate_position_key p.symbol p.magic_number)) = [] := by
        rw [List.filter_eq_nil_iff]
        intro r hr
        simp only [decide_eq_true_eq]
        intro hcontra
        exact hnd.1 (hcontra ▸ List.mem_map_of_mem _ hr)
      simp [hrestnil]
    · have hne : ¬ generate_position_key q.symbol q.magic_number =
          generate_position_key p.symbol p.magic_number := by
        intro hcontra
        exact hnd.1 (hcontra ▸ List.mem_map_of_mem _ hrest)
      simp only [List.filter_cons, decide_eq_true_eq, hne, if_false]
      exact ih hnd.2 p hrest

/-- C6 (amended): a broker error leaves the mirror untouched; on success the
mirror is rebuilt with no prior entry surviving, holding for each key the last
returned position with that key; with pairwise-distinct position keys this is
exactly one entry per returned position, and every entry comes from a
returned position. -/
theorem c6_sync_state (mirror : Mirror) :
    sync_state (Except.error ()) mirror = mirror
    ∧ (∀ ps : List Position, ∀ k,
        dlookup (sync_state (Except.ok ps) mirror) k =
          (ps.filter
            (fun p => decide (generate_position_key p.symbol p.magic_number = k))).getLast?)
    ∧ (∀ ps : List Position,
        (ps.map (fun p => generate_position_key p.symbol p.magic_number)).Nodup →
        ∀ p ∈ ps,
          dlookup (sync_state (Except.ok ps) mirror)
            (generate_position_key p.symbol p.magic_number) = some p)
    ∧ (∀ ps : List Position, ∀ k,
        (dlookup (sync_state (Except.ok ps) mirror) k).isSome = true →
        ∃ p ∈ ps, generate_position_key p.symbol p.magic_number = k) := by
  have hchar : ∀ ps : List Position, ∀ k,
      dlookup (sync_state (Except.ok ps) mirror) k =
        (ps.filter
          (fun p => decide (generate_position_key p.symbol p.magic_number = k))).getLast? := by
    intro ps k
    rw [show sync_state (Except.ok ps) mirror = ps.foldl
        (fun a p => dinsert a (generate_position_key p.symbol p.magic_number) p) []
      from rfl, dlookup_build]
    cases hql : (ps.filter
        (fun p => decide (generate_position_key p.symbol p.magic_number = k))).getLast? with
    | none => simp [hql, dlookup]
    | some q => simp [hql]
  refine ⟨rfl, hchar, ?_, ?_⟩
  · intro ps hnd p hp
    rw [hchar, filter_key_nodup ps hnd p hp]
    rfl
  · intro ps k hsome
    rw [hchar] at hsome
    rcases hlast : (ps.filter
        (fun p => decide (generate_position_key p.symbol p.magic_number = k))).getLast? with
      _ | q
    · rw [hlast] at hsome; cases hsome
    · have hqlast : q ∈ (ps.filter
          (fun p => decide (generate_position_key p.symbol p.magic_number = k))).getLast? :=
        Option.mem_def.mpr hlast
      rcases List.mem_getLast?_eq_getLast hqlast with ⟨hne, hq⟩
      have hqmem : q ∈ ps.filter
          (fun p => decide (generate_position_key p.symbol p.magic_number = k)) := by
        rw [hq]
        exact List.getLast_mem hne
      have hq2 := List.mem_filter.1 hqmem
      exact ⟨q, hq2.1, of_decide_eq_true hq2.2⟩

/-- C6 counterexample: when the broker returns the same (symbol, magic)
position twice, the rebuilt mirror has one entry for two returned positions,
so the map does not contain exactly one entry per returned position. -/
theorem c6_sync_state_counterexample :
    (sync_state (Except.ok [c6Pos, c6Pos]) []).length = 1
    ∧ [c6Pos, c6Pos].length = 2 := by
  constructor
  · decide
  · decide

theorem c6_sync_state_witness :
    sync_state (Except.error ()) [("EURUSD_7", c6Pos)] = [("EURUSD_7", c6Pos)]
    ∧ dlookup (sync_state (Except.ok [c6Pos]) []) "EURUSD_7" =
        ([c6Pos].filter
          (fun p => decide (generate_position_key p.symbol p.magic_number = "EURUSD_7"))).getLast? :=
  ⟨(c6_sync_state [("EURUSD_7", c6Pos)]).1,
    (c6_sync_state []).2.1 [c6Pos] "EURUSD_7"⟩

/-! ## C5: finer targets in get_resampled_data -/

theorem mem_dedupAux {α : Type} [DecidableEq α] :
    ∀ (l seen : List α) (x : α), x ∈ dedupAux l seen ↔ (x ∈ l ∧ x ∉ seen) := by
  intro l
  induction l with
  | nil => intro seen x; simp [dedupAux]
  | cons y rest ih =>
    intro seen x
    by_cases hy : y ∈ seen
    · rw [dedupAux, if_pos hy, ih]
      constructor
      · rintro ⟨hx, hns⟩
        exact ⟨List.mem_cons_of_mem _ hx, hns⟩
      · rintro ⟨hx, hns⟩
        rcases List.mem_cons.1 hx with rfl | hx2
        · exact absurd hy hns
        · exact ⟨hx2, hns⟩
    · rw [dedupAux, if_neg hy]
      constructor
      · intro hx
        rcases List.mem_cons.1 hx with rfl | hx2
        · exact ⟨List.mem_cons_self _ _, hy⟩
        · rcases (ih (y :: seen) x).1 hx2 with ⟨hxr, hxs⟩
          exact ⟨List.mem_cons_of_mem _ hxr,
            fun hs => hxs (List.mem_cons_of_mem _ hs)⟩
      · rintro ⟨hx, hns⟩
        rcases List.mem_cons.1 hx with rfl | hx2
        · exact List.mem_cons_self _ _
        · by_cases hxy : x = y
          · subst hxy; exact List.mem_cons_self _ _
          · exact List.mem_cons_of_mem _ ((ih (y :: seen) x).2
              ⟨hx2, fun hs => (List.mem_cons.1 hs).elim hxy hns⟩)

theorem mem_dedupList {α : Type} [DecidableEq α] (l : List α) (x : α) :
    x ∈ dedupList l ↔ x ∈ l := by
  rw [dedupList, mem_dedupAux]
  simp

/-- C5 (amended): when the base and every target timeframe have TIMEFRAME_MAP
entries and the fetch succeeds, get_resampled_data succeeds, the base
timeframe maps to the fetched series unmodified, and, whenever the fetched
series is nonempty, every target timeframe appears in the result map, a
strictly finer target included (the source only logs the incompatibility
warning and resamples anyway). -/
theorem c5_get_resampled_data (base : String) (tfs : List String)
    (raw : DataFrame)
    (hbase : (TIMEFRAME_MAP base).isSome = true)
    (htfs : ∀ tf ∈ tfs, (TIMEFRAME_MAP tf).isSome = true) :
    ∃ res, get_resampled_data (Except.ok raw) base tfs = Except.ok res
      ∧ dlookup res base = some raw
      ∧ (raw ≠ [] → ∀ tf ∈ tfs, (dlookup res tf).isSome = true) := by
  have hfreq : ∀ tf ∈ dedupList (tfs ++ [base]), (TIMEFRAME_MAP tf).isSome = true := by
    intro tf htf
    rcases List.mem_append.1 ((mem_dedupList _ tf).1 htf) with h | h
    · exact htfs tf h
    · rw [List.mem_singleton.1 h]
      exact hbase
  have hfind : (dedupList (tfs ++ [base])).find?
      (fun tf => (TIMEFRAME_MAP tf).isNone) = none := by
    rw [List.find?_eq_none]
    intro tf htf
    simp [Option.isNone_iff_eq_none]
    exact Option.isSome_iff_ne_none.1 (hfreq tf htf)
  rcases hbm : TIMEFRAME_MAP base with _ | bf
  · rw [hbm] at hbase; cases hbase
  · by_cases hraw : raw = []
    · refine ⟨[(base, raw)], ?_, ?_, ?_⟩
      · rw [get_resampled_data]
        simp [hbm, hfind, hraw]
      · simp [dlookup]
      · intro hcontra; exact absurd hraw hcontra
    · refine ⟨(base, raw) :: resampleAll raw base (dedupList (tfs ++ [base])), ?_, ?_, ?_⟩
      · rw [get_resampled_data]
        simp [hbm, hfind, hraw]
      · simp [dlookup]
      · intro _ tf htf
        by_cases htb : tf = base
        · subst htb
          simp [dlookup]
        · have htfreq : tf ∈ dedupList (tfs ++ [base]) :=
            (mem_dedupList _ tf).2 (List.mem_append.2 (Or.inl htf))
          rcases hfs : TIMEFRAME_MAP tf with _ | fs
          · have hcontra := htfs tf htf
            rw [hfs] at hcontra
            simp at hcontra
          · have hmem : (tf, resample raw (freqMinutes fs)) ∈
                resampleAll raw base (dedupList (tfs ++ [base])) := by
              rw [resampleAll, List.mem_filterMap]
              exact ⟨tf, htfreq, by simp [htb, hfs]⟩
            rw [show dlookup ((base, raw) :: resampleAll raw base
                (dedupList (tfs ++ [base]))) tf =
              if base = tf then some raw
              else dlookup (resampleAll raw base (dedupList (tfs ++ [base]))) tf
              from rfl]
            rw [if_neg (fun h => htb h.symm)]
            exact (dlookup_isSome_iff _ tf).2 ⟨resample raw (freqMinutes fs), hmem⟩

/-- C5 counterexample: M1 is strictly finer than the base M5 (the source
compatibility check itself says incompatible), yet after a successful fetch
the result map of get_resampled_data does contain the M1 key, against the
claim that a finer target must not appear in the result map. -/
theorem c5_get_resampled_data_counterexample :
    is_timeframe_compatible "M5" "M1" = false
    ∧ (get_resampled_data (Except.ok c5Raw) "M5" ["M1"]).toOption.map
        (fun res => (dlookup res "M1").isSome) = some true := by
  constructor
  · decide
  · decide

theorem c5_get_resampled_data_witness :
    ∃ res, get_resampled_data (Except.ok c5Raw) "M1" ["M5"] = Except.ok res
      ∧ dlookup res "M1" = some c5Raw
      ∧ (c5Raw ≠ [] → ∀ tf ∈ ["M5"], (dlookup res tf).isSome = true) :=
  c5_get_resampled_data "M1" ["M5"] c5Raw (by decide) (by decide)

/-! ## C8: register_strategy -/

theorem probeMagic_lt (reg : StrategyRegistry) :
    ∀ (fuel m : Nat), m < 2 ^ 31 → probeMagic reg fuel m < 2 ^ 31 := by
  intro fuel
  induction fuel with
  | zero => intro m hm; simpa [probeMagic] using hm
  | succ fuel ih =>
    intro m hm
    rw [probeMagic]
    split
    · exact ih _ (Nat.mod_lt _ (by norm_num))
    · exact hm

theorem probeMagic_char (reg : StrategyRegistry) :
    ∀ (fuel start i : Nat), i < fuel → start < 2 ^ 31 →
      (∀ j < i, magicUsed reg ((start + j) % 2 ^ 31) = true) →
      magicUsed reg ((start + i) % 2 ^ 31) = false →
      probeMagic reg fuel start = (start + i) % 2 ^ 31 := by
  intro fuel
  induction fuel with
  | zero => intro start i hi; exact absurd hi (Nat.not_lt_zero i)
  | succ fuel ih =>
    intro start i hi hstart hall hfree
    have hmod : ∀ j, ((start + 1) % 2 ^ 31 + j) % 2 ^ 31 = (start + (j + 1)) % 2 ^ 31 := by
      intro j
      rw [Nat.mod_add_mod]
      congr 1
      omega
    cases i with
    | zero =>
      rw [Nat.add_zero, Nat.mod_eq_of_lt hstart] at hfree
      rw [probeMagic, if_neg (by rw [hfree]; exact Bool.false_ne_true),
        Nat.add_zero, Nat.mod_eq_of_lt hstart]
    | succ i2 =>
      have h0 : magicUsed reg start = true := by
        have := hall 0 (Nat.succ_pos i2)
        rwa [Nat.add_zero, Nat.mod_eq_of_lt hstart] at this
      have hrec := ih ((start + 1) % 2 ^ 31) i2 (by omega)
        (Nat.mod_lt _ (by norm_num))
        (fun j hj => by rw [hmod j]; exact hall (j + 1) (by omega))
        (by rw [hmod i2]; exact hfree)
      rw [probeMagic, if_pos (by rw [h0]), hrec, hmod i2]

theorem magic_free_exists (reg : StrategyRegistry) (start : Nat)
    (hcount : reg.magic_to_strategy.length < 2 ^ 31) :
    ∃ i, i < 2 ^ 31 ∧ magicUsed reg ((start + i) % 2 ^ 31) = false := by
  by_contra hcon
  push_neg at hcon
  have hused : ∀ i < 2 ^ 31,
      ((start + i) % 2 ^ 31) ∈ reg.magic_to_strategy.map Prod.fst := by
    intro i hi
    have hb : magicUsed reg ((start + i) % 2 ^ 31) = true := by
      cases hb : magicUsed reg ((start + i) % 2 ^ 31) with
      | false => exact absurd hb (hcon i hi)
      | true => rfl
    rw [magicUsed] at hb
    rcases (dlookup_isSome_iff _ _).1 hb with ⟨v, hv⟩
    exact List.mem_map.2 ⟨(_, v), hv, rfl⟩
  have hinj : Set.InjOn (fun i => (start + i) % 2 ^ 31)
      ((Finset.range (2 ^ 31)) : Finset Nat) := by
    intro i1 h1 i2 h2 heq
    have h1r := Finset.mem_range.1 (Finset.mem_coe.1 h1)
    have h2r := Finset.mem_range.1 (Finset.mem_coe.1 h2)
    simp only at heq
    omega
  have hsub : (Finset.range (2 ^ 31)).image (fun i => (start + i) % 2 ^ 31) ⊆
      (reg.magic_to_strategy.map Prod.fst).toFinset := by
    intro x hx
    rcases Finset.mem_image.1 hx with ⟨i, hi, rfl⟩
    exact List.mem_toFinset.2 (hused i (Finset.mem_range.1 hi))
  have hcard1 : ((Finset.range (2 ^ 31)).image
      (fun i => (start + i) % 2 ^ 31)).card = 2 ^ 31 := by
    rw [Finset.card_image_of_injOn hinj, Finset.card_range]
  have hcard2 := Finset.card_le_card hsub
  have hcard3 := List.toFinset_card_le (reg.magic_to_strategy.map Prod.fst)
  rw [hcard1] at hcard2
  have hlen : (reg.magic_to_strategy.map Prod.fst).length =
      reg.magic_to_strategy.length := List.length_map _ _
  omega

/-- C8 (amended): a registered name returns its existing magic and changes
nothing; an unregistered name gets the first free magic in the increment
sequence that starts at the candidate (the most significant 32 bits of the
MD5 digest reduced modulo 2 to the 31, not the whole 128-bit digest), stays
in range, equals the candidate when the candidate is free, and both dicts
record the assignment. -/
theorem c8_register_strategy (reg : StrategyRegistry) (name : String) :
    (∀ m, dlookup reg.strategy_to_magic name = some m →
      register_strategy reg name = (m, reg))
    ∧ (dlookup reg.strategy_to_magic name = none →
       reg.magic_to_strategy.length < 2 ^ 31 →
       ∃ hex : ∃ i, magicUsed reg ((md5Candidate name + i) % 2 ^ 31) = false,
         (register_strategy reg name).1 =
             (md5Candidate name + Nat.find hex) % 2 ^ 31
         ∧ magicUsed reg (register_strategy reg name).1 = false
         ∧ (register_strategy reg name).1 < 2 ^ 31
         ∧ (magicUsed reg (md5Candidate name) = false →
             (register_strategy reg name).1 = md5Candidate name)
         ∧ (register_strategy reg name).2.strategy_to_magic =
             dinsert reg.strategy_to_magic name (register_strategy reg name).1
         ∧ (register_strategy reg name).2.magic_to_strategy =
             dinsert reg.magic_to_strategy (register_strategy reg name).1 name) := by
  constructor
  · intro m hm
    rw [register_strategy, hm]
  · intro hnone hcount
    have hstart : md5Candidate name < 2 ^ 31 := Nat.mod_lt _ (by norm_num)
    rcases magic_free_exists reg (md5Candidate name) hcount with ⟨i, hi31, hfree⟩
    have hex : ∃ i, magicUsed reg ((md5Candidate name + i) % 2 ^ 31) = false :=
      ⟨i, hfree⟩
    refine ⟨hex, ?_⟩
    have hk := Nat.find_spec hex
    have hklt : Nat.find hex < 2 ^ 31 :=
      Nat.lt_of_le_of_lt (Nat.find_min' hex hfree) hi31
    have hmin : ∀ j < Nat.find hex,
        magicUsed reg ((md5Candidate name + j) % 2 ^ 31) = true := by
      intro j hj
      have hne := Nat.find_min hex hj
      cases hb : magicUsed reg ((md5Candidate name + j) % 2 ^ 31) with
      | false => exact absurd hb hne
      | true => rfl
    have hprobe : probeMagic reg (2 ^ 31) (md5Candidate name) =
        (md5Candidate name + Nat.find hex) % 2 ^ 31 :=
      probeMagic_char reg (2 ^ 31) (md5Candidate name) (Nat.find hex)
        hklt hstart hmin hk
    have hres : register_strategy reg name =
        (probeMagic reg (2 ^ 31) (md5Candidate name),
          ⟨dinsert reg.strategy_to_magic name
             (probeMagic reg (2 ^ 31) (md5Candidate name)),
           dinsert reg.magic_to_strategy
             (probeMagic reg (2 ^ 31) (md5Candidate name)) name⟩) := by
      rw [register_strategy, hnone]
    refine ⟨?_, ?_, ?_, ?_, ?_, ?_⟩
    · rw [hres, hprobe]
    · rw [hres]
      show magicUsed reg (probeMagic reg (2 ^ 31) (md5Candidate name)) = false
      rw [hprobe]
      exact hk
    · rw [hres]
      exact probeMagic_lt reg (2 ^ 31) (md5Candidate name) hstart
    · intro hcand
      have hzero : Nat.find hex = 0 := by
        rcases Nat.eq_zero_or_pos (Nat.find hex) with h0 | hpos
        · exact h0
        · exfalso
          have := hmin 0 hpos
          rw [Nat.add_zero, Nat.mod_eq_of_lt hstart] at this
          rw [hcand] at this
          exact Bool.false_ne_true this
      rw [hres, hprobe, hzero, Nat.add_zero, Nat.mod_eq_of_lt hstart]
    · rw [hres]
    · rw [hres]

/-- C8 counterexample: for the name "abc" on an empty registry the assigned
magic is the top 32 bits of the MD5 digest reduced modulo 2 to the 31, which
differs from the whole 128-bit digest reduced modulo 2 to the 31, so the
candidate does not equal the claim's 128-bit hash reduced modulo 2 to the 31. -/
theorem c8_register_strategy_counterexample :
    (register_strategy ⟨[], []⟩ "abc").1 = md5Candidate "abc"
    ∧ md5Candidate "abc" = 268521624
    ∧ specCandidate "abc" = 685866866
    ∧ (register_strategy ⟨[], []⟩ "abc").1 ≠ specCandidate "abc" := by
  refine ⟨?_, ?_, ?_, ?_⟩ <;> decide

theorem c8_register_strategy_witness :
    register_strategy ⟨[("S", 7)], [(7, "S")]⟩ "S" = (7, ⟨[("S", 7)], [(7, "S")]⟩)
    ∧ magicUsed ⟨[("S", 7)], [(7, "S")]⟩
        (register_strategy ⟨[("S", 7)], [(7, "S")]⟩ "abc").1 = false
    ∧ (register_strategy ⟨[("S", 7)], [(7, "S")]⟩ "abc").1 < 2 ^ 31 := by
  obtain ⟨hex, h1, h2, h3, h4, h5, h6⟩ :=
    (c8_register_strategy ⟨[("S", 7)], [(7, "S")]⟩ "abc").2 (by decide) (by decide)
  exact ⟨(c8_register_strategy ⟨[("S", 7)], [(7, "S")]⟩ "S").1 7 (by decide), h2, h3⟩

/-! ## C10: registered position strategy_name and comment shape -/

theorem processSignals_comment (ordResp : OrderRequest → OrderResult) (now : Nat)
    (sname : String) (mg : Nat) :
    ∀ (sigs : List Signal) (mirror : Mirror),
      ∀ o ∈ (processSignals ordResp now sname mg sigs mirror).2,
        ∃ s t, o.comment = some (s ++ "-" ++ t) := by
  intro sigs
  induction sigs with
  | nil =>
    intro mirror o ho
    simp [processSignals] at ho
  | cons sig rest ih =>
    intro mirror o ho
    rw [processSignals] at ho
    by_cases hbs : sig.signal_type = SignalType.BUY ∨ sig.signal_type = SignalType.SELL
    · rw [if_pos hbs] at ho
      by_cases hop : has_open_position mirror sig.symbol (some sname) (some mg) = true
      · rw [if_pos hop] at ho
        exact ih _ o ho
      · rw [if_neg hop] at ho
        rcases List.mem_cons.1 ho with rfl | ho2
        · exact ⟨sig.strategy_name, sig.timeframe, rfl⟩
        · exact ih _ o ho2
    · rw [if_neg hbs] at ho
      by_cases hcl : sig.signal_type = SignalType.CLOSE
      · rw [if_pos hcl] at ho
        by_cases hop : has_open_position mirror sig.symbol (some sname) (some mg) = true
        · rw [if_pos hop] at ho
          rcases List.mem_cons.1 ho with rfl | ho2
          · exact ⟨sig.strategy_name, sig.timeframe, rfl⟩
          · exact ih _ o ho2
        · rw [if_neg hop] at ho
          exact ih _ o ho
      · rw [if_neg hcl] at ho
        exact ih _ o ho

theorem processStrategies_comment (ordResp : OrderRequest → OrderResult) (now : Nat)
    (limits : RiskLimits) (history : List TradeRecord) (data : DataMap) :
    ∀ (strategies : List Strategy) (st : Mirror × StrategyRegistry),
      ∀ o ∈ (processStrategies ordResp now limits history data strategies st).2,
        ∃ s t, o.comment = some (s ++ "-" ++ t) := by
  intro strategies
  induction strategies with
  | nil =>
    intro st o ho
    simp [processStrategies] at ho
  | cons strat rest ih =>
    intro st o ho
    rw [processStrategies] at ho
    by_cases hrisk : check_strategy_risk_limits limits strat.name history = true
    · rw [if_pos hrisk] at ho
      rcases List.mem_append.1 ho with h | h
      · exact processSignals_comment ordResp now strat.name _ _ _ o h
      · exact ih _ o h
    · rw [if_neg hrisk] at ho
      exact ih _ o ho

theorem processSymbols_comment (inp : CycleInputs) (limits : RiskLimits)
    (strategies : List Strategy) (history : List TradeRecord) :
    ∀ (symbols : List SymbolConfig) (st : Mirror × StrategyRegistry),
      ∀ o ∈ (processSymbols inp limits strategies history symbols st).2,
        ∃ s t, o.comment = some (s ++ "-" ++ t) := by
  intro symbols
  induction symbols with
  | nil =>
    intro st o ho
    simp [processSymbols] at ho
  | cons sym rest ih =>
    intro st o ho
    rw [processSymbols] at ho
    by_cases hrisk : check_symbol_risk_limits limits sym.name history = true
    · rw [if_pos hrisk] at ho
      by_cases hreq : requiredTimeframes strategies sym.name = []
      · rw [if_pos hreq] at ho
        exact ih _ o ho
      · rw [if_neg hreq] at ho
        by_cases hcompat : filterCompatible sym.min_timeframe
            (requiredTimeframes strategies sym.name) = []
        · rw [if_pos hcompat] at ho
          exact ih _ o ho
        · rw [if_neg hcompat] at ho
          rcases hdata : get_resampled_data (inp.fetch sym.name) sym.min_timeframe
              (filterCompatible sym.min_timeframe
                (requiredTimeframes strategies sym.name)) with e | data
          · rw [hdata] at ho
            exact ih _ o ho
          · rw [hdata] at ho
            rcases List.mem_append.1 ho with h | h
            · exact processStrategies_comment inp.order_resp inp.now limits
                history data strategies st o h
            · exact ih _ o h
    · rw [if_neg hrisk] at ho
      exact ih _ o ho

/-- C10: an accepted BUY or SELL registers a Position whose strategy_name is
the order comment (or "unknown" when absent) and whose entry_price is 0;
every order the cycle engine dispatches carries a comment of the shape
"{strategy_name}-{timeframe}" built from the signal; and the magic-less
has_open_position fallback matches a position exactly via the symbol match
and the startswith prefix test on the stored strategy_name. -/
theorem c10_position_attribution (ordResp : OrderRequest → OrderResult)
    (now : Nat) (mirror : Mirror) (req : OrderRequest) (cfg : BotConfig)
    (inp : CycleInputs) (st : BotState) (symbol sname : String) :
    ((ordResp req).success = true →
      (req.order_type = "BUY" ∨ req.order_type = "SELL") →
      dlookup (execute_order ordResp now mirror req).1
          (generate_position_key req.symbol req.magic_number) =
        some ⟨req.symbol, req.volume, 0, req.stop_loss, req.take_profit,
          req.comment.getD "unknown", now, req.magic_number⟩)
    ∧ (∀ o ∈ (run_once cfg inp st).2, ∃ s t, o.comment = some (s ++ "-" ++ t))
    ∧ (has_open_position mirror symbol (some sname) none = true ↔
        ∃ kv ∈ mirror, kv.2.symbol = symbol ∧
          kv.2.strategy_name.startsWith sname = true) := by
  refine ⟨?_, ?_, ?_⟩
  · intro hs ht
    rcases ht with h | h <;>
      simp [execute_order, hs, h, register_position, dlookup_dinsert_self]
  · intro o ho
    rw [run_once] at ho
    by_cases hgate : check_bot_risk_limits cfg.risk_limits
        (update_trade_history inp.closed_trades_resp st.trade_history) = true
    · rw [if_pos hgate] at ho
      exact processSymbols_comment inp cfg.risk_limits cfg.strategies _
        cfg.symbols _ o ho
    · rw [if_neg hgate] at ho
      simp at ho
  · simp [has_open_position, List.any_eq_true, Bool.and_eq_true, decide_eq_true_eq]

theorem c10_position_attribution_witness :
    dlookup (execute_order c10Resp 3 [] c10Req).1
        (generate_position_key c10Req.symbol c10Req.magic_number) =
      some ⟨c10Req.symbol, c10Req.volume, 0, c10Req.stop_loss, c10Req.take_profit,
        c10Req.comment.getD "unknown", 3, c10Req.magic_number⟩ :=
  (c10_position_attribution c10Resp 3 [] c10Req
    ⟨⟨none, [], [], 1⟩, [], []⟩ ⟨Except.error (), Except.error (), fun _ => Except.error (),
      c10Resp, 0⟩ ⟨[], [], ⟨[], []⟩⟩ "EURUSD" "S").1 rfl (Or.inl rfl)

/-! ## C2: gate soundness -/

/-- C2: when check_bot_risk_limits on the updated history is false, run_once
dispatches no orders and its only effects are the sync and the trade-history
update that precede the gate. -/
theorem c2_gate_soundness (cfg : BotConfig) (inp : CycleInputs) (st : BotState)
    (h : check_bot_risk_limits cfg.risk_limits
      (update_trade_history inp.closed_trades_resp st.trade_history) = false) :
    run_once cfg inp st =
      (⟨sync_state inp.open_positions_resp st.open_positions,
        update_trade_history inp.closed_trades_resp st.trade_history,
        st.registry⟩, []) := by
  rw [run_once]
  simp [h]

theorem c2_gate_soundness_witness :
    run_once c2Cfg c2Inp c2St =
      (⟨sync_state c2Inp.open_positions_resp c2St.open_positions,
        update_trade_history c2Inp.closed_trades_resp c2St.trade_history,
        c2St.registry⟩, []) :=
  c2_gate_soundness c2Cfg c2Inp c2St (by
    norm_num [check_bot_risk_limits, c2Cfg, c2Inp, c2St, c2Trade,
      update_trade_history, tradeKey, calculate_drawdown, drawdownStep,
      List.foldl])

/-! ## C1: duplicate suppression across cycles -/

theorem has_open_position_magic (mirror : Mirror) (symbol : String)
    (sn : Option String) (mg : Nat) :
    has_open_position mirror symbol sn (some mg) =
      (dlookup mirror (generate_position_key symbol (some mg))).isSome := rfl

theorem isOurOrder_iff (X : String) (m : Nat) (o : OrderRequest) :
    isOurOrder X m o = true ↔
      o.symbol = X ∧ o.magic_number = some m ∧
        (o.order_type = "BUY" ∨ o.order_type = "SELL") := by
  simp [isOurOrder, Bool.and_eq_true, Bool.or_eq_true, decide_eq_true_eq,
    and_assoc]

theorem key_ne_of_pair_ne (s1 : String) (m1 : Nat) (X : String) (m : Nat)
    (h : ¬(s1 = X ∧ m1 = m)) :
    generate_position_key s1 (some m1) ≠ generate_position_key X (some m) :=
  fun hk => h (generate_position_key_inj s1 X m1 m hk)

theorem countOurs_nil (X : String) (m : Nat) : countOurs X m [] = 0 := rfl

theorem countOurs_cons (X : String) (m : Nat) (o : OrderRequest)
    (l : List OrderRequest) :
    countOurs X m (o :: l) =
      (if isOurOrder X m o = true then 1 else 0) + countOurs X m l := by
  by_cases h : isOurOrder X m o <;>
    simp [countOurs, List.filter_cons, h, Nat.add_comm]

theorem countOurs_append (X : String) (m : Nat) (l1 l2 : List OrderRequest) :
    countOurs X m (l1 ++ l2) = countOurs X m l1 + countOurs X m l2 := by
  simp [countOurs, List.filter_append]

theorem execute_order_other_key (ordResp : OrderRequest → OrderResult)
    (now : Nat) (mirror : Mirror) (req : OrderRequest) (K : String) (mg : Nat)
    (hm : req.magic_number = some mg)
    (hne : generate_position_key req.symbol (some mg) ≠ K) :
    dlookup (execute_order ordResp now mirror req).1 K = dlookup mirror K := by
  have hne2 : K ≠ generate_position_key req.symbol (some mg) := fun h => hne h.symm
  by_cases hs : (ordResp req).success = true
  · by_cases hbuy : req.order_type = "BUY" ∨ req.order_type = "SELL"
    · simp only [execute_order, hs, if_true, if_pos hbuy, register_position, hm]
      exact dlookup_dinsert_ne mirror _ K _ hne2
    · by_cases hcl : req.order_type = "CLOSE"
      · simp only [execute_order, hs, if_true, if_neg hbuy, if_pos hcl,
          remove_position, hm]
        exact dlookup_derase_ne mirror _ K hne2
      · simp [execute_order, hs, hbuy, hcl]
  · simp [execute_order, hs]

theorem execute_order_registers (ordResp : OrderRequest → OrderResult)
    (now : Nat) (mirror : Mirror) (req : OrderRequest)
    (hs : (ordResp req).success = true)
    (ht : req.order_type = "BUY" ∨ req.order_type = "SELL") :
    (dlookup (execute_order ordResp now mirror req).1
      (generate_position_key req.symbol req.magic_number)).isSome = true := by
  rcases ht with h | h <;>
    simp [execute_order, hs, h, register_position, dlookup_dinsert_self]

theorem sync_keeps (ps : List Position) (mirror : Mirror) (K : String)
    (hp : ∃ p ∈ ps, generate_position_key p.symbol p.magic_number = K) :
    (dlookup (sync_state (Except.ok ps) mirror) K).isSome = true := by
  rcases hp with ⟨p, hpm, hpk⟩
  have hmem : p ∈ ps.filter
      (fun q => decide (generate_position_key q.symbol q.magic_number = K)) :=
    List.mem_filter.2 ⟨hpm, by simp [hpk]⟩
  rw [show sync_state (Except.ok ps) mirror = ps.foldl
      (fun a q => dinsert a (generate_position_key q.symbol q.magic_number) q) []
    from rfl, dlookup_build]
  cases hql : (ps.filter
      (fun q => decide (generate_position_key q.symbol q.magic_number = K))).getLast? with
  | none =>
    rw [List.getLast?_eq_none_iff] at hql
    exact absurd hql (List.ne_nil_of_mem hmem)
  | some q => simp [hql]

theorem processSignals_dedup (ordResp : OrderRequest → OrderResult) (now : Nat)
    (X : String) (m : Nat) (sname : String) (mg : Nat)
    (hsucc : ∀ req, isOurOrder X m req = true → (ordResp req).success = true) :
    ∀ (sigs : List Signal) (mirror : Mirror) (c : Nat),
      (mg = m → ∀ sig ∈ sigs, sig.signal_type = SignalType.CLOSE → sig.symbol ≠ X) →
      c ≤ 1 →
      (1 ≤ c → (dlookup mirror (generate_position_key X (some m))).isSome = true) →
      c + countOurs X m (processSignals ordResp now sname mg sigs mirror).2 ≤ 1
      ∧ (1 ≤ c + countOurs X m (processSignals ordResp now sname mg sigs mirror).2 →
         (dlookup (processSignals ordResp now sname mg sigs mirror).1
           (generate_position_key X (some m))).isSome = true) := by
  intro sigs
  induction sigs with
  | nil =>
    intro mirror c hcl hc hkey
    rw [processSignals, countOurs_nil, Nat.add_zero]
    exact ⟨hc, hkey⟩
  | cons sig rest ih =>
    intro mirror c hcl hc hkey
    have hclrest : mg = m →
        ∀ s ∈ rest, s.signal_type = SignalType.CLOSE → s.symbol ≠ X :=
      fun hm s hs => hcl hm s (List.mem_cons_of_mem _ hs)
    rw [processSignals]
    by_cases hbs : sig.signal_type = SignalType.BUY ∨ sig.signal_type = SignalType.SELL
    · rw [if_pos hbs]
      by_cases hop : has_open_position mirror sig.symbol (some sname) (some mg) = true
      · rw [if_pos hop]
        exact ih mirror c hclrest hc hkey
      · rw [if_neg hop]
        have hreqty : (buildOrderRequest sig mg).order_type = "BUY" ∨
            (buildOrderRequest sig mg).order_type = "SELL" := by
          rcases hbs with h | h
          · exact Or.inl (by simp [buildOrderRequest, h, SignalType.value])
          · exact Or.inr (by simp [buildOrderRequest, h, SignalType.value])
        by_cases hour : isOurOrder X m (buildOrderRequest sig mg) = true
        · have hparts := (isOurOrder_iff X m (buildOrderRequest sig mg)).1 hour
          have hsx : sig.symbol = X := hparts.1
          have hmgm : mg = m := by
            have := hparts.2.1
            simpa [buildOrderRequest] using this
          have hc0 : c = 0 := by
            by_contra hne
            apply hop
            rw [has_open_position_magic, hsx, hmgm]
            exact hkey (by omega)
          have hins : (dlookup
              (execute_order ordResp now mirror (buildOrderRequest sig mg)).1
              (generate_position_key X (some m))).isSome = true := by
            have h1 := execute_order_registers ordResp now mirror
              (buildOrderRequest sig mg) (hsucc _ hour) hreqty
            have hkeq : generate_position_key (buildOrderRequest sig mg).symbol
                (buildOrderRequest sig mg).magic_number =
                generate_position_key X (some m) := by
              simp [buildOrderRequest, hsx, hmgm]
            rwa [hkeq] at h1
          obtain ⟨ha, hb⟩ := ih
            (execute_order ordResp now mirror (buildOrderRequest sig mg)).1 1
            hclrest (le_refl 1) (fun _ => hins)
          constructor
          · rw [countOurs_cons, if_pos hour]
            omega
          · intro _
            exact hb (by omega)
        · have hnotpair : ¬(sig.symbol = X ∧ mg = m) := by
            intro hpair
            apply hour
            rw [isOurOrder_iff]
            exact ⟨hpair.1, by simp [buildOrderRequest, hpair.2], hreqty⟩
          have hpres : dlookup
              (execute_order ordResp now mirror (buildOrderRequest sig mg)).1
              (generate_position_key X (some m)) =
              dlookup mirror (generate_position_key X (some m)) :=
            execute_order_other_key ordResp now mirror (buildOrderRequest sig mg)
              _ mg (by simp [buildOrderRequest])
              (by
                have := key_ne_of_pair_ne sig.symbol mg X m hnotpair
                simpa [buildOrderRequest] using this)
          obtain ⟨ha, hb⟩ := ih
            (execute_order ordResp now mirror (buildOrderRequest sig mg)).1 c
            hclrest hc (fun h1 => by rw [hpres]; exact hkey h1)
          constructor
          · rw [countOurs_cons, if_neg (by simp [hour])]
            omega
          · intro hc1
            apply hb
            rwa [countOurs_cons, if_neg (by simp [hour]), Nat.zero_add] at hc1
    · rw [if_neg hbs]
      by_cases hclo : sig.signal_type = SignalType.CLOSE
      · rw [if_pos hclo]
        by_cases hop : has_open_position mirror sig.symbol (some sname) (some mg) = true
        · rw [if_pos hop]
          have hnotour : isOurOrder X m (buildOrderRequest sig mg) = false := by
            cases hb : isOurOrder X m (buildOrderRequest sig mg) with
            | false => rfl
            | true =>
              exfalso
              have hparts := (isOurOrder_iff X m (buildOrderRequest sig mg)).1 hb
              rcases hparts.2.2 with h | h
              · have : sig.signal_type.value = "BUY" := by
                  simpa [buildOrderRequest] using h
                rw [hclo] at this
                simp [SignalType.value] at this
              · have : sig.signal_type.value = "SELL" := by
                  simpa [buildOrderRequest] using h
                rw [hclo] at this
                simp [SignalType.value] at this
          have hkne : generate_position_key sig.symbol (some mg) ≠
              generate_position_key X (some m) := by
            by_cases hmg : mg = m
            · have hsx : sig.symbol ≠ X := hcl hmg sig (List.mem_cons_self _ _) hclo
              exact key_ne_of_pair_ne sig.symbol mg X m (fun hp => hsx hp.1)
            · exact key_ne_of_pair_ne sig.symbol mg X m (fun hp => hmg hp.2)
          have hpres : dlookup
              (execute_order ordResp now mirror (buildOrderRequest sig mg)).1
              (generate_position_key X (some m)) =
              dlookup mirror (generate_position_key X (some m)) :=
            execute_order_other_key ordResp now mirror (buildOrderRequest sig mg)
              _ mg (by simp [buildOrderRequest])
              (by simpa [buildOrderRequest] using hkne)
          obtain ⟨ha, hb⟩ := ih
            (execute_order ordResp now mirror (buildOrderRequest sig mg)).1 c
            hclrest hc (fun h1 => by rw [hpres]; exact hkey h1)
          constructor
          · rw [countOurs_cons, if_neg (by simp [hnotour])]
            omega
          · intro hc1
            apply hb
            rwa [countOurs_cons, if_neg (by simp [hnotour]), Nat.zero_add] at hc1
        · rw [if_neg hop]
          exact ih mirror c hclrest hc hkey
      · rw [if_neg hclo]
        exact ih mirror c hclrest hc hkey

theorem processStrategies_dedup (ordResp : OrderRequest → OrderResult) (now : Nat)
    (limits : RiskLimits) (history : List TradeRecord) (data : DataMap)
    (X : String) (m : Nat)
    (hsucc : ∀ req, isOurOrder X m req = true → (ordResp req).success = true) :
    ∀ (strategies : List Strategy) (st : Mirror × StrategyRegistry) (c : Nat),
      (∀ strat ∈ strategies,
        (dlookup st.2.strategy_to_magic strat.name).isSome = true) →
      (∀ strat ∈ strategies, dlookup st.2.strategy_to_magic strat.name = some m →
        ∀ d, ∀ sig ∈ strat.generate_signals d,
          sig.signal_type = SignalType.CLOSE → sig.symbol ≠ X) →
      c ≤ 1 →
      (1 ≤ c → (dlookup st.1 (generate_position_key X (some m))).isSome = true) →
      (processStrategies ordResp now limits history data strategies st).1.2 = st.2
      ∧ c + countOurs X m
          (processStrategies ordResp now limits history data strategies st).2 ≤ 1
      ∧ (1 ≤ c + countOurs X m
            (processStrategies ordResp now limits history data strategies st).2 →
         (dlookup (processStrategies ordResp now limits history data strategies st).1.1
           (generate_position_key X (some m))).isSome = true) := by
  intro strategies
  induction strategies with
  | nil =>
    intro st c _ _ hc hkey
    rw [processStrategies]
    refine ⟨rfl, ?_, ?_⟩
    · rw [countOurs_nil]; omega
    · intro h
      rw [countOurs_nil, Nat.add_zero] at h
      exact hkey h
  | cons strat rest ih =>
    intro st c hreg hclose hc hkey
    have hregrest : ∀ s ∈ rest, (dlookup st.2.strategy_to_magic s.name).isSome = true :=
      fun s hs => hreg s (List.mem_cons_of_mem _ hs)
    have hclorest : ∀ s ∈ rest, dlookup st.2.strategy_to_magic s.name = some m →
        ∀ d, ∀ sig ∈ s.generate_signals d,
          sig.signal_type = SignalType.CLOSE → sig.symbol ≠ X :=
      fun s hs => hclose s (List.mem_cons_of_mem _ hs)
    rw [processStrategies]
    by_cases hrisk : check_strategy_risk_limits limits strat.name history = true
    · rw [if_pos hrisk]
      rcases hmg : dlookup st.2.strategy_to_magic strat.name with _ | mgval
      · have := hreg strat (List.mem_cons_self _ _)
        rw [hmg] at this
        simp at this
      · simp only [get_magic_number, hmg]
        obtain ⟨ha, hb⟩ := processSignals_dedup ordResp now X m strat.name mgval
          hsucc (strat.generate_signals data) st.1 c
          (fun hmgm sig hsig =>
            hclose strat (List.mem_cons_self _ _) (by rw [hmg, hmgm]) data sig hsig)
          hc hkey
        obtain ⟨hr1, hr2, hr3⟩ := ih
          ((processSignals ordResp now strat.name mgval
            (strat.generate_signals data) st.1).1, st.2)
          (c + countOurs X m (processSignals ordResp now strat.name mgval
            (strat.generate_signals data) st.1).2)
          hregrest hclorest ha hb
        refine ⟨hr1, ?_, ?_⟩
        · rw [countOurs_append]
          omega
        · intro h
          apply hr3
          rw [countOurs_append] at h
          omega
    · rw [if_neg hrisk]
      exact ih st c hregrest hclorest hc hkey

theorem processSymbols_dedup (inp : CycleInputs) (limits : RiskLimits)
    (strategies : List Strategy) (history : List TradeRecord)
    (X : String) (m : Nat)
    (hsucc : ∀ req, isOurOrder X m req = true → (inp.order_resp req).success = true) :
    ∀ (symbols : List SymbolConfig) (st : Mirror × StrategyRegistry) (c : Nat),
      (∀ strat ∈ strategies,
        (dlookup st.2.strategy_to_magic strat.name).isSome = true) →
      (∀ strat ∈ strategies, dlookup st.2.strategy_to_magic strat.name = some m →
        ∀ d, ∀ sig ∈ strat.generate_signals d,
          sig.signal_type = SignalType.CLOSE → sig.symbol ≠ X) →
      c ≤ 1 →
      (1 ≤ c → (dlookup st.1 (generate_position_key X (some m))).isSome = true) →
      (processSymbols inp limits strategies history symbols st).1.2 = st.2
      ∧ c + countOurs X m
          (processSymbols inp limits strategies history symbols st).2 ≤ 1
      ∧ (1 ≤ c + countOurs X m
            (processSymbols inp limits strategies history symbols st).2 →
         (dlookup (processSymbols inp limits strategies history symbols st).1.1
           (generate_position_key X (some m))).isSome = true) := by
  intro symbols
  induction symbols with
  | nil =>
    intro st c _ _ hc hkey
    rw [processSymbols]
    refine ⟨rfl, ?_, ?_⟩
    · rw [countOurs_nil]; omega
    · intro h
      rw [countOurs_nil, Nat.add_zero] at h
      exact hkey h
  | cons sym rest ih =>
    intro st c hreg hclose hc hkey
    by_cases hrisk : check_symbol_risk_limits limits sym.name history = true
    · by_cases hreq : requiredTimeframes strategies sym.name = []
      · have heq : processSymbols inp limits strategies history (sym :: rest) st =
            processSymbols inp limits strategies history rest st := by
          rw [processSymbols, if_pos hrisk, if_pos hreq]
        rw [heq]
        exact ih st c hreg hclose hc hkey
      · by_cases hcompat : filterCompatible sym.min_timeframe
            (requiredTimeframes strategies sym.name) = []
        · have heq : processSymbols inp limits strategies history (sym :: rest) st =
              processSymbols inp limits strategies history rest st := by
            rw [processSymbols, if_pos hrisk, if_neg hreq, if_pos hcompat]
          rw [heq]
          exact ih st c hreg hclose hc hkey
        · rcases hdata : get_resampled_data (inp.fetch sym.name) sym.min_timeframe
              (filterCompatible sym.min_timeframe
                (requiredTimeframes strategies sym.name)) with e | data
          · have heq : processSymbols inp limits strategies history (sym :: rest) st =
                processSymbols inp limits strategies history rest st := by
              rw [processSymbols, if_pos hrisk, if_neg hreq, if_neg hcompat, hdata]
            rw [heq]
            exact ih st c hreg hclose hc hkey
          · have heqA : (processSymbols inp limits strategies history (sym :: rest) st).1 =
                (processSymbols inp limits strategies history rest
                  (processStrategies inp.order_resp inp.now limits history data
                    strategies st).1).1 := by
              rw [processSymbols, if_pos hrisk, if_neg hreq, if_neg hcompat, hdata]
            have heqB : (processSymbols inp limits strategies history (sym :: rest) st).2 =
                (processStrategies inp.order_resp inp.now limits history data
                  strategies st).2 ++
                (processSymbols inp limits strategies history rest
                  (processStrategies inp.order_resp inp.now limits history data
                    strategies st).1).2 := by
              rw [processSymbols, if_pos hrisk, if_neg hreq, if_neg hcompat, hdata]
            obtain ⟨hp1, hp2, hp3⟩ := processStrategies_dedup inp.order_resp inp.now
              limits history data X m hsucc strategies st c hreg hclose hc hkey
            obtain ⟨hr1, hr2, hr3⟩ := ih
              (processStrategies inp.order_resp inp.now limits history data
                strategies st).1
              (c + countOurs X m (processStrategies inp.order_resp inp.now limits
                history data strategies st).2)
              (fun s hs => by rw [hp1]; exact hreg s hs)
              (fun s hs => by rw [hp1]; exact hclose s hs)
              hp2 hp3
            rw [heqA, heqB]
            refine ⟨by rw [hr1, hp1], ?_, ?_⟩
            · rw [countOurs_append]
              omega
            · intro h
              apply hr3
              rw [countOurs_append] at h
              omega
    · have heq : processSymbols inp limits strategies history (sym :: rest) st =
          processSymbols inp limits strategies history rest st := by
        rw [processSymbols, if_neg hrisk]
      rw [heq]
      exact ih st c hreg hclose hc hkey

theorem run_once_dedup (cfg : BotConfig) (inp : CycleInputs) (st : BotState)
    (X : String) (m : Nat) (c : Nat)
    (hsucc : ∀ req, isOurOrder X m req = true → (inp.order_resp req).success = true)
    (hreg : ∀ strat ∈ cfg.strategies,
      (dlookup st.registry.strategy_to_magic strat.name).isSome = true)
    (hclose : ∀ strat ∈ cfg.strategies,
      dlookup st.registry.strategy_to_magic strat.name = some m →
      ∀ d, ∀ sig ∈ strat.generate_signals d,
        sig.signal_type = SignalType.CLOSE → sig.symbol ≠ X)
    (hkeeps : ∀ ps, inp.open_positions_resp = Except.ok ps →
      (dlookup st.open_positions (generate_position_key X (some m))).isSome = true →
      ∃ p ∈ ps, generate_position_key p.symbol p.magic_number =
        generate_position_key X (some m))
    (hc : c ≤ 1)
    (hkey : 1 ≤ c →
      (dlookup st.open_positions (generate_position_key X (some m))).isSome = true) :
    (run_once cfg inp st).1.registry = st.registry
    ∧ c + countOurs X m (run_once cfg inp st).2 ≤ 1
    ∧ (1 ≤ c + countOurs X m (run_once cfg inp st).2 →
       (dlookup (run_once cfg inp st).1.open_positions
         (generate_position_key X (some m))).isSome = true) := by
  have hkey1 : 1 ≤ c →
      (dlookup (sync_state inp.open_positions_resp st.open_positions)
        (generate_position_key X (some m))).isSome = true := by
    intro h1
    cases hresp : inp.open_positions_resp with
    | error e =>
      rw [show sync_state (Except.error e) st.open_positions = st.open_positions
        from rfl]
      exact hkey h1
    | ok ps =>
      exact sync_keeps ps _ _ (hkeeps ps hresp (hkey h1))
  rw [run_once]
  by_cases hgate : check_bot_risk_limits cfg.risk_limits
      (update_trade_history inp.closed_trades_resp st.trade_history) = true
  · rw [if_pos hgate]
    obtain ⟨h1, h2, h3⟩ := processSymbols_dedup inp cfg.risk_limits cfg.strategies
      (update_trade_history inp.closed_trades_resp st.trade_history) X m hsucc
      cfg.symbols
      (sync_state inp.open_positions_resp st.open_positions, st.registry) c
      hreg hclose hc hkey1
    exact ⟨h1, h2, h3⟩
  · rw [if_neg hgate]
    refine ⟨rfl, ?_, ?_⟩
    · rw [countOurs_nil]; omega
    · intro h
      rw [countOurs_nil, Nat.add_zero] at h
      exact hkey1 h

theorem runCycles_dedup (cfg : BotConfig) (X : String) (m : Nat) :
    ∀ (inputs : List CycleInputs) (st : BotState) (c : Nat),
      (∀ inp ∈ inputs, ∀ req, isOurOrder X m req = true →
        (inp.order_resp req).success = true) →
      (∀ strat ∈ cfg.strategies,
        (dlookup st.registry.strategy_to_magic strat.name).isSome = true) →
      (∀ strat ∈ cfg.strategies,
        dlookup st.registry.strategy_to_magic strat.name = some m →
        ∀ d, ∀ sig ∈ strat.generate_signals d,
          sig.signal_type = SignalType.CLOSE → sig.symbol ≠ X) →
      KeepsOpen cfg (generate_position_key X (some m)) st inputs →
      c ≤ 1 →
      (1 ≤ c →
        (dlookup st.open_positions (generate_position_key X (some m))).isSome = true) →
      c + countOurs X m (runCycles cfg inputs st).2 ≤ 1 := by
  intro inputs
  induction inputs with
  | nil =>
    intro st c _ _ _ _ hc _
    rw [runCycles, countOurs_nil]
    omega
  | cons inp rest ih =>
    intro st c hsucc hreg hclose hkeeps hc hkey
    cases hkeeps with
    | cons _ _ _ hbrk hkrest =>
      rw [runCycles]
      obtain ⟨hr, h2, h3⟩ := run_once_dedup cfg inp st X m c
        (hsucc inp (List.mem_cons_self _ _)) hreg hclose hbrk hc hkey
      have hrest := ih (run_once cfg inp st).1
        (c + countOurs X m (run_once cfg inp st).2)
        (fun i hi => hsucc i (List.mem_cons_of_mem _ hi))
        (fun strat hst => by rw [hr]; exact hreg strat hst)
        (fun strat hst => by rw [hr]; exact hclose strat hst)
        hkrest h2 h3
      rw [countOurs_append]
      omega

/-- C1: over any sequence of cycles in which every BUY or SELL for (X, m)
succeeds at the broker, every strategy carrying magic m never emits a CLOSE
for X, all configured strategies are registered (name-to-magic lookup
injective not needed: the key argument uses position-key injectivity), and
the broker keeps reporting the mirrored (X, m) position as open whenever the
pre-cycle mirror holds it, runCycles dispatches at most one BUY or SELL order
for (X, m) in total. -/
theorem c1_duplicate_suppression (cfg : BotConfig) (X : String) (m : Nat)
    (inputs : List CycleInputs) (st0 : BotState)
    (hsucc : ∀ inp ∈ inputs, ∀ req, isOurOrder X m req = true →
      (inp.order_resp req).success = true)
    (hreg : ∀ strat ∈ cfg.strategies,
      (dlookup st0.registry.strategy_to_magic strat.name).isSome = true)
    (hclose : ∀ strat ∈ cfg.strategies,
      dlookup st0.registry.strategy_to_magic strat.name = some m →
      ∀ d, ∀ sig ∈ strat.generate_signals d,
        sig.signal_type = SignalType.CLOSE → sig.symbol ≠ X)
    (hkeeps : KeepsOpen cfg (generate_position_key X (some m)) st0 inputs) :
    countOurs X m (runCycles cfg inputs st0).2 ≤ 1 := by
  have := runCycles_dedup cfg X m inputs st0 0 hsucc hreg hclose hkeeps
    (by omega) (fun h => absurd h (by omega))
  omega

theorem c1_duplicate_suppression_witness :
    countOurs "EURUSD" 7 (runCycles c1Cfg [c1Inp, c1Inp] c1St).2 ≤ 1 :=
  c1_duplicate_suppression c1Cfg "EURUSD" 7 [c1Inp, c1Inp] c1St
    (by
      intro inp hinp req hreq
      rcases List.mem_cons.1 hinp with rfl | h2
      · rfl
      · rcases List.mem_singleton.1 h2 with rfl
        rfl)
    (by
      intro strat hst
      rcases List.mem_singleton.1 hst with rfl
      decide)
    (by
      intro strat hst hm d sig hsig hcl
      rcases List.mem_singleton.1 hst with rfl
      rcases List.mem_singleton.1 hsig with rfl
      cases hcl)
    (KeepsOpen.cons _ _ _ (fun ps hps => nomatch hps)
      (KeepsOpen.cons _ _ _ (fun ps hps => nomatch hps)
        (KeepsOpen.nil _)))

end Bot
